import Mathlib

/-!
# sonar_processing: index arithmetic, image filters and ROI extraction

A shallow embedding of `SonarHolder.hpp`, `Utils.hpp`, `ImageFiltering.cpp` and
`SonarImagePreprocessing.cpp`.

* C++ `int` / `uint32_t` values are integers with explicit reduction modulo `2^32`
  where the source mixes the two (`SonarHolder` index arithmetic, `roi_line`).
* `float` / `double` values are modelled by `Flt`: an exact rational, or one of the
  IEEE special values `+inf`, `-inf`, `NaN`.  Arithmetic on finite values is exact
  (rounding and overflow are not modelled); the special values follow IEEE 754, so
  `0/0 = NaN`, `x/0 = ±inf`, and every ordered comparison with `NaN` is false.
* `cv::Mat` is a pair of dimensions and a pixel function `data row col`.
-/

namespace SonarProcessing

/-! ## 32-bit machine integers -/

/-- Conversion `int -> uint32_t`: reduction modulo `2^32`. -/
def toU32 (i : Int) : Nat := (i % 4294967296).toNat

/-- Conversion `uint32_t -> int` (two's complement). -/
def toI32 (n : Nat) : Int :=
  if n % 4294967296 < 2147483648 then ((n % 4294967296 : Nat) : Int)
  else ((n % 4294967296 : Nat) : Int) - 4294967296

/-! ## SonarHolder (SonarHolder.hpp) -/

/-- The two `uint32_t` counters of `SonarHolder` used by the index queries. -/
structure SonarHolder where
  bin_count_ : Nat
  beam_count_ : Nat

/-- `int index_to_beam(int index) const { return index / bin_count_; }`:
the `int` operand is converted to `uint32_t`, the quotient is converted back. -/
def SonarHolder.index_to_beam (h : SonarHolder) (index : Int) : Int :=
  toI32 (toU32 index / h.bin_count_)

/-- `int index_to_bin(int index) const { return index % bin_count_; }`. -/
def SonarHolder.index_to_bin (h : SonarHolder) (index : Int) : Int :=
  toI32 (toU32 index % h.bin_count_)

/-- `int index_at(int beam, int bin) const { return beam * bin_count_ + bin; }`,
evaluated in `uint32_t` arithmetic. -/
def SonarHolder.index_at (h : SonarHolder) (beam bin : Int) : Int :=
  toI32 ((toU32 beam * h.bin_count_ + toU32 bin) % 4294967296)

/-- `void index_to_polar(int index, int& bin, int& beam)`: the pair `(bin, beam)`. -/
def SonarHolder.index_to_polar (h : SonarHolder) (index : Int) : Int × Int :=
  (h.index_to_bin index, h.index_to_beam index)

/-! ## Floating-point values -/

/-- A `float` / `double` value: an exact rational or an IEEE special value. -/
inductive Flt where
  | fin (q : ℚ)
  | pinf
  | ninf
  | nan
deriving DecidableEq

namespace Flt

/-- Conversion of a non-negative integer count (`int`, `unsigned int`) to floating point. -/
def ofNat (n : Nat) : Flt := fin (n : ℚ)

/-- Conversion of an `int` to floating point. -/
def ofInt (i : Int) : Flt := fin (i : ℚ)

/-- `std::isnan`. -/
def isnan : Flt → Bool
  | nan => true
  | _ => false

/-- The value is an ordinary number (neither infinite nor NaN). -/
def isFinite : Flt → Bool
  | fin _ => true
  | _ => false

/-- Unary minus. -/
def neg : Flt → Flt
  | fin a => fin (-a)
  | pinf => ninf
  | ninf => pinf
  | nan => nan

/-- IEEE addition (exact on finite values; `inf + -inf = NaN`). -/
def add : Flt → Flt → Flt
  | fin a, fin b => fin (a + b)
  | fin _, pinf => pinf
  | fin _, ninf => ninf
  | pinf, fin _ => pinf
  | pinf, pinf => pinf
  | ninf, fin _ => ninf
  | ninf, ninf => ninf
  | _, _ => nan

/-- IEEE subtraction. -/
def sub (a b : Flt) : Flt := add a (neg b)

/-- IEEE multiplication (exact on finite values; `0 * inf = NaN`). -/
def mul : Flt → Flt → Flt
  | fin a, fin b => fin (a * b)
  | fin a, pinf => if 0 < a then pinf else if a < 0 then ninf else nan
  | fin a, ninf => if 0 < a then ninf else if a < 0 then pinf else nan
  | pinf, fin b => if 0 < b then pinf else if b < 0 then ninf else nan
  | ninf, fin b => if 0 < b then ninf else if b < 0 then pinf else nan
  | pinf, pinf => pinf
  | ninf, ninf => pinf
  | pinf, ninf => ninf
  | ninf, pinf => ninf
  | _, _ => nan

/-- IEEE division (exact on finite values; `0/0 = NaN`, `x/0 = ±inf` by the sign of `x`,
the zero divisors of this program being non-negative counts and areas). -/
def div : Flt → Flt → Flt
  | fin a, fin b =>
      if b = 0 then (if 0 < a then pinf else if a < 0 then ninf else nan) else fin (a / b)
  | fin _, pinf => fin 0
  | fin _, ninf => fin 0
  | pinf, fin b => if 0 ≤ b then pinf else ninf
  | ninf, fin b => if 0 ≤ b then ninf else pinf
  | _, _ => nan

/-- The comparison `a < b`; false whenever an operand is NaN. -/
def lt : Flt → Flt → Bool
  | fin a, fin b => decide (a < b)
  | fin _, pinf => true
  | ninf, fin _ => true
  | ninf, pinf => true
  | _, _ => false

/-- The comparison `a <= b`; false whenever an operand is NaN. -/
def le : Flt → Flt → Bool
  | fin a, fin b => decide (a ≤ b)
  | fin _, pinf => true
  | ninf, fin _ => true
  | ninf, pinf => true
  | pinf, pinf => true
  | ninf, ninf => true
  | _, _ => false

instance : Add Flt := ⟨add⟩
instance : Sub Flt := ⟨sub⟩
instance : Mul Flt := ⟨mul⟩
instance : Div Flt := ⟨div⟩

/-- The value lies in the closed interval `[0,1]`. -/
def inUnit (v : Flt) : Bool := le (fin 0) v && le v (fin 1)

/-- The idiom `std::isnan(value) ? 0 : value`. -/
def nanToZero (v : Flt) : Flt := if v.isnan then fin 0 else v

end Flt

/-! ## Rasters (`cv::Mat`) and the OpenCV primitives the sources call -/

/-- A single-channel `cv::Mat`: `data y x` is the pixel of row `y`, column `x`.
Only the pixels with `y < rows` and `x < cols` belong to the raster. -/
structure Mat (α : Type) where
  rows : Nat
  cols : Nat
  data : Nat → Nat → α

/-- `cv::Mat::empty()`; an omitted optional mask (`cv::noArray()`) is an empty raster. -/
def Mat.empty {α : Type} (m : Mat α) : Bool := m.rows == 0 || m.cols == 0

/-- `m.at<T>(y, x)` for `int` coordinates. -/
def Mat.get {α : Type} (m : Mat α) (y x : Int) : α := m.data y.toNat x.toNat

/-- `cv::noArray()` as a mask argument. -/
def noArray : Mat Nat := ⟨0, 0, fun _ _ => 0⟩

/-- Left-to-right sum `f 0 + f 1 + ... + f (n-1)`. -/
def sumTo : Nat → (Nat → Flt) → Flt
  | 0, _ => Flt.fin 0
  | n + 1, f => sumTo n f + f n

/-- Number of indices `i < n` with `p i`. -/
def countTo : Nat → (Nat → Bool) → Nat
  | 0, _ => 0
  | n + 1, p => countTo n p + (if p n then 1 else 0)

/-- `cv::integral(src, integral, CV_32F)`: the `(rows+1) x (cols+1)` summed-area table,
`integral(Y, X) = sum of src(y, x) over y < Y, x < X`. -/
def cv_integral (src : Mat Flt) : Mat Flt :=
  ⟨src.rows + 1, src.cols + 1, fun Y X => sumTo Y (fun y => sumTo X (fun x => src.data y x))⟩

/-- `cv::sum(m.row(r))[0]`: the sum of all pixels of row `r`. -/
def cv_sum_row (m : Mat Flt) (r : Nat) : Flt := sumTo m.cols (fun x => m.data r x)

/-- `cv::countNonZero(m.row(r))`. -/
def cv_countNonZero_row (m : Mat Nat) (r : Nat) : Nat :=
  countTo m.cols (fun x => m.data r x != 0)

/-- The sum of the pixels of row `r` of `m` whose mask pixel is non-zero. -/
def masked_sum_row (m : Mat Flt) (mask : Mat Nat) (r : Nat) : Flt :=
  sumTo m.cols (fun x => if mask.data r x != 0 then m.data r x else Flt.fin 0)

/-- `cv::Point`. -/
structure Point where
  x : Int
  y : Int

/-- `cv::Rect`. -/
structure Rect where
  x : Int
  y : Int
  width : Int
  height : Int

/-- The constructor `cv::Rect(pt1, pt2)`: the corner `pt2` is exclusive, the width is the
difference of the two abscissae. -/
def Rect.ofPoints (pt1 pt2 : Point) : Rect :=
  ⟨min pt1.x pt2.x, min pt1.y pt2.y,
    max pt1.x pt2.x - min pt1.x pt2.x, max pt1.y pt2.y - min pt1.y pt2.y⟩

/-- `cv::Rect::area()`. -/
def Rect.area (r : Rect) : Int := r.width * r.height

/-! ## Utils.hpp -/

/-- `utils::clip_rect`. -/
def clip_rect (tl br min_tl max_br : Point) : Rect :=
  Rect.ofPoints ⟨max min_tl.x tl.x, max min_tl.y tl.y⟩ ⟨min br.x max_br.x, min br.y max_br.y⟩

/-- `utils::neighborhood_rect`. -/
def neighborhood_rect (x y n w h : Int) : Rect :=
  clip_rect ⟨x - n, y - n⟩ ⟨x + n, y + n⟩ ⟨0, 0⟩ ⟨w - 1, h - 1⟩

/-! ## ImageUtil.hpp (not among the sources) -/

/-- Modelled from the spec: `image_util::integral_image_sum<float>(integral, x1, y1, x2, y2)`
of ImageUtil.hpp, which is not among the sources.  The spec calls the integral image "a
precomputed prefix-sum table enabling O(1) rectangular-region sum queries"; the query for the
region of columns `x1 <= x < x2` and rows `y1 <= y < y2` (the region whose pixel count the
callers divide by) combines the four table corners. -/
def integral_image_sum (integral : Mat Flt) (x1 y1 x2 y2 : Int) : Flt :=
  integral.get y2 x2 - integral.get y1 x2 - integral.get y2 x1 + integral.get y1 x1

/-- Modelled from the spec: the overload `image_util::integral_image_sum<float>(integral, rect)`
of ImageUtil.hpp, the region sum over the pixels of `rect`. -/
def integral_image_sum_rect (integral : Mat Flt) (r : Rect) : Flt :=
  integral_image_sum integral r.x r.y (r.x + r.width) (r.y + r.height)

/-! ## ImageFiltering.cpp

Each filter allocates `dst` as zeros and its double loop writes pixel `(y, x)` in iteration
`(y, x)` only, reading no pixel of `dst`; `dst` is therefore given pixel by pixel. -/

/-- The scale radii `N[i] = minimum_dimension / (1 << (i+1))`, `i = 0, 1, 2`. -/
def saliency_scales (width height : Nat) : List Nat :=
  (List.range 3).map (fun i => min width height / 2 ^ (i + 1))

/-- One iteration of the scale loop of `saliency_gray`: the new value of `cv_sum`. -/
def saliency_gray_step (integral : Mat Flt) (width height : Int) (x y : Int) (val : Flt)
    (cv_sum : Flt) (n : Nat) : Flt :=
  let y1 := max 0 (y - n)
  let y2 := min (y + n) (height - 1)
  let x1 := max 0 (x - n)
  let x2 := min (x + n) (width - 1)
  let NN : Int := (x2 - x1) * (y2 - y1)
  let mean := integral_image_sum integral x1 y1 x2 y2 / Flt.ofInt NN
  let diff := val - mean
  cv_sum + diff * diff

/-- `saliency_gray(src_arr, dst_arr, mask_arr)`: the raster copied to `dst_arr`. -/
def saliency_gray (src : Mat Flt) (mask : Mat Nat) : Mat Flt :=
  let N := saliency_scales src.cols src.rows
  let integral := cv_integral src
  { rows := src.rows
    cols := src.cols
    data := fun y x =>
      if y < src.rows ∧ x < src.cols then
        if !mask.empty && mask.data y x == 0 then Flt.fin 0
        else
          N.foldl (saliency_gray_step integral src.cols src.rows x y (src.data y x)) (Flt.fin 0)
      else Flt.fin 0 }

/-- `integral_mean_filter(integral_arr, dst_arr, ksize, mask_arr)`: the raster copied to
`dst_arr`. -/
def integral_mean_filter (integral : Mat Flt) (ksize : Int) (mask : Mat Nat) : Mat Flt :=
  let w : Int := (integral.cols : Int) - 1
  let h : Int := (integral.rows : Int) - 1
  { rows := h.toNat
    cols := w.toNat
    data := fun y x =>
      if y < h.toNat ∧ x < w.toNat then
        let r := neighborhood_rect x y ksize w h
        if !mask.empty && mask.data y x == 0 then Flt.fin 0
        else integral_image_sum_rect integral r / Flt.ofInt r.area
      else Flt.fin 0 }

/-- `mean_filter(src_arr, dst_arr, ksize, mask_arr)`. -/
def mean_filter (src : Mat Flt) (ksize : Int) (mask : Mat Nat) : Mat Flt :=
  integral_mean_filter (cv_integral src) ksize mask

/-- The local raster `dst` that `meand_filter` fills in its double loop. -/
def meand_filter_dst (src : Mat Flt) (ksize_outer ksize_inner : Int) : Mat Flt :=
  let integral := cv_integral src
  { rows := src.rows
    cols := src.cols
    data := fun y x =>
      if y < src.rows ∧ x < src.cols then
        let r0 := neighborhood_rect x y ksize_outer src.cols src.rows
        let r1 := neighborhood_rect x y ksize_inner src.cols src.rows
        let m0 := integral_image_sum_rect integral r0 / Flt.ofInt r0.area
        let m1 := integral_image_sum_rect integral r1 / Flt.ofInt r1.area
        m1 - m0
      else Flt.fin 0 }

/-- `meand_filter(src_arr, dst_arr, ksize_outer, ksize_inner, mask_arr)`: the content of
the caller's `dst_arr` after the call, given its content `dst_arr` before the call.  Unlike
`integral_mean_filter`, `mean_difference_filter` and the saliency filters, whose last
statement is `dst.copyTo(dst_arr)` (or `sm.copyTo(dst_arr)`), the body of `meand_filter`
ends after the loop: `dst_arr` is never written. -/
def meand_filter (src : Mat Flt) (dst_arr : Mat Flt) (ksize_outer ksize_inner : Int)
    (_mask : Mat Nat) : Mat Flt :=
  let _dst := meand_filter_dst src ksize_outer ksize_inner
  dst_arr

/-- `mean_difference_filter(src_arr0, src_arr1, dst_arr, ksize, mask_arr)`: the raster copied
to `dst_arr`, or `none` when `CV_Assert(src_arr0.size() == src_arr1.size())` fails. -/
def mean_difference_filter (src0 src1 : Mat Flt) (ksize : Int) (mask : Mat Nat) :
    Option (Mat Flt) :=
  if src0.rows = src1.rows ∧ src0.cols = src1.cols then
    let integral := cv_integral src0
    let w : Int := src0.cols
    let h : Int := src0.rows
    some
      { rows := src0.rows
        cols := src0.cols
        data := fun y x =>
          if y < src0.rows ∧ x < src0.cols then
            let r := neighborhood_rect x y ksize w h
            if !mask.empty && mask.data y x == 0 then Flt.fin 0
            else
              let m := integral_image_sum_rect integral r / Flt.ofInt r.area
              let d := src1.data y x - m
              if Flt.lt d (Flt.fin 0) then Flt.fin 0
              else if Flt.lt (Flt.fin 1) d then Flt.fin 1 else d
          else Flt.fin 0 }
  else none

/-- The loop `for (size_t i = 30; i < src.rows; i++)` that fills `row_mean`, a vector of
`src.rows` zeros before the loop. -/
def insonification_row_mean (src : Mat Flt) (mask : Mat Nat) : List Flt :=
  (List.range' 30 (src.rows - 30)).foldl
    (fun row_mean i =>
      let num_points := cv_countNonZero_row mask i
      if num_points ≠ 0 then
        row_mean.set i (Flt.nanToZero (cv_sum_row src i / Flt.ofNat num_points))
      else row_mean)
    (List.replicate src.rows (Flt.fin 0))

/-- `*std::max_element(first, last)`: the first largest element under `<`; `none` for an
empty range, where the source dereferences `last`. -/
def max_element : List Flt → Option Flt
  | [] => none
  | v :: vs => some (vs.foldl (fun largest e => if Flt.lt largest e then e else largest) v)

/-- `*std::min_element(first, last)`: the first smallest element under `<`; `none` for an
empty range. -/
def min_element : List Flt → Option Flt
  | [] => none
  | v :: vs => some (vs.foldl (fun smallest e => if Flt.lt e smallest then e else smallest) v)

/-- `insonification_correction(src, mask, dst)`: the final `dst`, or `none` when the call
does not return: `mask.row(i)` throws for a mask with fewer rows than `src` has rows above
row 30, and for a `src` without rows `std::max_element` of an empty vector is
dereferenced. -/
def insonification_correction (src : Mat Flt) (mask : Mat Nat) : Option (Mat Flt) :=
  if 30 < src.rows ∧ mask.rows < src.rows then none
  else
    let row_mean := insonification_row_mean src mask
    match max_element row_mean with
    | none => none
    | some max_mean =>
      some
        { rows := src.rows
          cols := src.cols
          data := fun y x =>
            let scaled :=
              if 30 ≤ y ∧ y < src.rows ∧ row_mean.getD y (Flt.fin 0) ≠ Flt.fin 0 then
                src.data y x * (max_mean / row_mean.getD y (Flt.fin 0))
              else src.data y x
            if Flt.lt (Flt.fin 1) scaled then Flt.fin 1 else scaled }

/-! ## SonarImagePreprocessing.cpp -/

/-- `std::partial_sum` continued from the running value `acc`. -/
def partial_sum_from (acc : Flt) : List Flt → List Flt
  | [] => []
  | v :: vs => (acc + v) :: partial_sum_from (acc + v) vs

/-- `std::partial_sum(first, last, out)`. -/
def partial_sum : List Flt → List Flt
  | [] => []
  | v :: vs => v :: partial_sum_from v vs

/-- The value of `end_row` after `if (end_row<0) end_row=source_image.rows;`. -/
def ExtractROI_end_row (source_image : Mat Flt) (end_row : Int) : Int :=
  if end_row < 0 then (source_image.rows : Int) else end_row

/-- The values taken by `i` in `for (size_t i = start_row; i <= end_row; i++)`: a negative
`start_row` converts to a `size_t` above every `end_row`, so the loop body never runs. -/
def ExtractROI_scan (source_image : Mat Flt) (start_row end_row : Int) : List Nat :=
  if start_row < 0 then []
  else List.range' start_row.toNat
    ((ExtractROI_end_row source_image end_row).toNat + 1 - start_row.toNat)

/-- The value stored by iteration `i` of the scan loop: the sum of image row
`r = rows - i - 1` divided by the non-zero count of mask row `r`, NaN replaced by 0. -/
def ExtractROI_row_value (source_image : Mat Flt) (source_mask : Mat Nat) (i : Nat) : Flt :=
  let r := source_image.rows - i - 1
  Flt.nanToZero (cv_sum_row source_image r / Flt.ofNat (cv_countNonZero_row source_mask r))

/-- The vector `row_mean` after the scan loop.  It has `end_row` elements, all 0 before the
loop; the store of the last iteration, `row_mean[end_row]`, addresses no element of the
vector and leaves its `end_row` elements as they are. -/
def ExtractROI_row_mean (source_image : Mat Flt) (source_mask : Mat Nat)
    (start_row end_row : Int) : List Flt :=
  (ExtractROI_scan source_image start_row end_row).foldl
    (fun row_mean i => row_mean.set i (ExtractROI_row_value source_image source_mask i))
    (List.replicate (ExtractROI_end_row source_image end_row).toNat (Flt.fin 0))

/-- The vector `accum_sum` after `std::partial_sum`. -/
def ExtractROI_accum_sum (source_image : Mat Flt) (source_mask : Mat Nat)
    (start_row end_row : Int) : List Flt :=
  partial_sum (ExtractROI_row_mean source_image source_mask start_row end_row)

/-- `thresh = alpha * (max - min) + min`. -/
def ExtractROI_thresh (alpha mn mx : Flt) : Flt := alpha * (mx - mn) + mn

/-- `std::replace_if(first, last, std::bind2nd(std::less<float>(), thresh), 0.0)`. -/
def replace_less (thresh : Flt) (v : List Flt) : List Flt :=
  v.map (fun e => if Flt.lt e thresh then Flt.fin 0 else e)

/-- `std::distance(first, std::find_if(first, last, std::bind2nd(std::greater<float>(), 0)))`:
the index of the first element above 0, the length when there is none. -/
def find_greater_zero (v : List Flt) : Nat :=
  v.findIdx (fun e => Flt.lt (Flt.fin 0) e)

/-- What `ExtractROI` leaves behind: the caller's mask raster (whose pixels the source
overwrites through the sub-raster header), the copy `roi_cart` and `roi_line`. -/
structure ROIResult where
  source_mask : Mat Nat
  roi_cart : Mat Nat
  roi_line : Nat

/-- `SonarImagePreprocessing::ExtractROI`.  `none` stands for the calls that do not return:
`cv::Mat::row(r)` with `r` outside the raster throws, `std::min_element` of an empty vector
is dereferenced, and the sub-raster `source_mask(cv::Rect(...))` with a rectangle outside
the raster throws. -/
def ExtractROI (source_image : Mat Flt) (source_mask : Mat Nat) (alpha : Flt)
    (start_row end_row : Int) : Option ROIResult :=
  if (ExtractROI_scan source_image start_row end_row).all
      (fun i => decide (i < source_image.rows ∧ source_image.rows - i - 1 < source_mask.rows))
  then
    let accum_sum := ExtractROI_accum_sum source_image source_mask start_row end_row
    match min_element accum_sum, max_element accum_sum with
    | some mn, some mx =>
      let thresh := ExtractROI_thresh alpha mn mx
      let new_y : Nat := (find_greater_zero (replace_less thresh accum_sum) + 1) % 4294967296
      let roi_line : Nat := toU32 ((source_mask.rows : Int) - (new_y : Int))
      let rect_y : Int := toI32 roi_line
      let rect_height : Int := toI32 new_y
      if 0 ≤ rect_y ∧ 0 ≤ rect_height ∧ rect_y + rect_height ≤ source_mask.rows then
        let trimmed : Mat Nat :=
          { rows := source_mask.rows
            cols := source_mask.cols
            data := fun y x =>
              if rect_y ≤ y ∧ (y : Int) < rect_y + rect_height ∧ x < source_mask.cols then 0
              else source_mask.data y x }
        some { source_mask := trimmed, roi_cart := trimmed, roi_line := roi_line }
      else none
    | _, _ => none
  else none

/-- The boundary row as the specification words it: `rows - (k+1)` for the smallest scan
index `k` whose cumulative sum strictly exceeds the threshold. -/
def roi_line_spec (rows : Nat) (accum_sum : List Flt) (thresh : Flt) : Int :=
  (rows : Int) - ((accum_sum.findIdx (fun e => Flt.lt thresh e) : Nat) + 1 : Int)

/-! ## Further definitions: window sums, `filter2d`, `saliency_color`, `Apply` -/

/-- The rational value of a finite `Flt` (0 for the special values). -/
def Flt.toRat : Flt → ℚ
  | Flt.fin q => q
  | _ => 0

/-- `utils::clip(val, min, max)` of Utils.hpp. -/
def clip (val mn mx : Flt) : Flt :=
  if Flt.lt val mn then mn else if Flt.lt mx val then mx else val

/-- The sum of the pixels of `m` inside the rectangle `r`: rows `r.y <= y < r.y + r.height`,
columns `r.x <= x < r.x + r.width`. -/
def rect_sum (m : Mat Flt) (r : Rect) : Flt :=
  sumTo r.height.toNat (fun j => sumTo r.width.toNat (fun i =>
    m.get (r.y + (j : Int)) (r.x + (i : Int))))

/-- The arithmetic mean of the pixels of `m` inside `r`: their sum divided by their number. -/
def rect_mean (m : Mat Flt) (r : Rect) : Flt := rect_sum m r / Flt.ofInt r.area

/-- The sum of the pixels of `m` inside `r` whose mask pixel is non-zero. -/
def masked_rect_sum (m : Mat Flt) (mask : Mat Nat) (r : Rect) : Flt :=
  sumTo r.height.toNat (fun j => sumTo r.width.toNat (fun i =>
    if mask.get (r.y + (j : Int)) (r.x + (i : Int)) != 0 then
      m.get (r.y + (j : Int)) (r.x + (i : Int))
    else Flt.fin 0))

/-- The number of pixels inside `r` whose mask pixel is non-zero. -/
def masked_rect_count (mask : Mat Nat) (r : Rect) : Nat :=
  (List.range r.height.toNat).foldl (fun c j =>
    c + countTo r.width.toNat (fun i => mask.get (r.y + (j : Int)) (r.x + (i : Int)) != 0)) 0

/-- The local mean of one scale of `saliency_gray`, the value of the variable `mean`. -/
def saliency_gray_mean (integral : Mat Flt) (width height : Int) (x y : Int) (n : Nat) : Flt :=
  integral_image_sum integral (max 0 (x - n)) (max 0 (y - n)) (min (x + n) (width - 1))
      (min (y + n) (height - 1)) /
    Flt.ofInt ((min (x + n) (width - 1) - max 0 (x - n)) *
      (min (y + n) (height - 1) - max 0 (y - n)))

/-- The local mean as the specification words it: the sum of the `(2n+1)^2` pixels of the
square window centred on `(x, y)`, divided by `(2n+1)^2`. -/
def centred_window_mean (src : Mat Flt) (x y n : Nat) : Flt :=
  sumTo (2 * n + 1) (fun j => sumTo (2 * n + 1) (fun i =>
      src.get ((y : Int) - (n : Int) + (j : Int)) ((x : Int) - (n : Int) + (i : Int)))) /
    Flt.ofNat ((2 * n + 1) ^ 2)

/-- The saliency of pixel `(x, y)` as the specification words it: the sum over the three
scales of `(pixel - centred mean)^2`. -/
def saliency_gray_spec (src : Mat Flt) (x y : Nat) : Flt :=
  (saliency_scales src.cols src.rows).foldl
    (fun cv_sum n =>
      cv_sum + (src.data y x - centred_window_mean src x y n) *
        (src.data y x - centred_window_mean src x y n))
    (Flt.fin 0)

/-- `cvRound` on a finite value: the nearest integer, ties to the even neighbour. -/
def cvRound (q : ℚ) : Int :=
  if q - (Rat.floor q : ℚ) < 1 / 2 then Rat.floor q
  else if 1 / 2 < q - (Rat.floor q : ℚ) then Rat.floor q + 1
  else if Rat.floor q % 2 = 0 then Rat.floor q else Rat.floor q + 1

/-- `cv::saturate_cast<uchar>(float)`: `cvRound`, then clamping to `0..255`.  A non-finite
argument has no nearest integer; it gives 0, as the x86 conversion does. -/
def saturate_cast_uchar : Flt → Nat
  | Flt.fin q => (max 0 (min 255 (cvRound q))).toNat
  | _ => 0

/-- `cv::Mat::t()`. -/
def Mat.t {α : Type} (m : Mat α) : Mat α := ⟨m.cols, m.rows, fun r c => m.data c r⟩

/-- The two inner loops of `filter2d` at the pixel `(y, x)`: the final values of
`mask_count` and `sum`. -/
def filter2d_accumulate (src : Mat Nat) (kernel : Mat Flt) (mask : Mat Nat) (y x : Nat) :
    Nat × Flt :=
  (List.range kernel.rows).foldl
    (fun acc (kernel_y : Nat) =>
      (List.range kernel.cols).foldl
        (fun acc (kernel_x : Nat) =>
          let yy : Int := (y : Int) - ((kernel.rows / 2 : Nat) : Int) + (kernel_y : Int)
          let xx : Int := (x : Int) - ((kernel.cols / 2 : Nat) : Int) + (kernel_x : Int)
          if mask.get yy xx ≠ 0 then
            (acc.1 + 1, acc.2 + Flt.ofNat (src.get yy xx) * kernel.data kernel_y kernel_x)
          else acc)
        acc)
    (0, Flt.fin 0)

/-- `filter2d(src, dst, kernel, mask)`: the raster assigned to `dst`, or `none` when one of
the leading `CV_Assert`s (non-empty kernel, square kernel) fails; the assertions precede the
first statement that touches `dst`. -/
def filter2d (src : Mat Nat) (kernel : Mat Flt) (mask : Mat Nat) : Option (Mat Nat) :=
  if kernel.empty then none
  else if kernel.cols ≠ kernel.rows then none
  else
    some
      { rows := src.rows
        cols := src.cols
        data := fun y x =>
          if kernel.cols / 2 ≤ y ∧ y + kernel.cols / 2 < src.rows ∧
              kernel.rows / 2 ≤ x ∧ x + kernel.rows / 2 < src.cols then
            if (filter2d_accumulate src kernel mask y x).1 = kernel.cols * kernel.rows then
              saturate_cast_uchar (filter2d_accumulate src kernel mask y x).2
            else 0
          else 0 }

/-- The footprint of the kernel at pixel `(y, x)`: the pixels
`(y - dy + kernel_y, x - dx + kernel_x)` read by the inner loops. -/
def footprint_inside (src : Mat Nat) (kernel : Mat Flt) (y x : Nat) : Prop :=
  ∀ kernel_y kernel_x : Nat, kernel_y < kernel.rows → kernel_x < kernel.cols →
    0 ≤ (y : Int) - ((kernel.rows / 2 : Nat) : Int) + (kernel_y : Int) ∧
    (y : Int) - ((kernel.rows / 2 : Nat) : Int) + (kernel_y : Int) < src.rows ∧
    0 ≤ (x : Int) - ((kernel.cols / 2 : Nat) : Int) + (kernel_x : Int) ∧
    (x : Int) - ((kernel.cols / 2 : Nat) : Int) + (kernel_x : Int) < src.cols

/-- Every pixel of the footprint of the kernel at `(y, x)` is mask-valid. -/
def footprint_valid (kernel : Mat Flt) (mask : Mat Nat) (y x : Nat) : Prop :=
  ∀ kernel_y kernel_x : Nat, kernel_y < kernel.rows → kernel_x < kernel.cols →
    mask.get ((y : Int) - ((kernel.rows / 2 : Nat) : Int) + (kernel_y : Int))
      ((x : Int) - ((kernel.cols / 2 : Nat) : Int) + (kernel_x : Int)) ≠ 0

/-- The enumeration `BorderFilterType` of ImageFiltering.hpp; the source names `kSCharr` and
`kPrewitt` and treats every other value as the Sobel kernel. -/
inductive BorderFilterType where
  | kSobel
  | kPrewitt
  | kSCharr
deriving DecidableEq

/-- The array `Gx` chosen by `border_filter_kernel`. -/
def border_filter_Gx : BorderFilterType → List ℚ
  | BorderFilterType.kSCharr => [-3, 0, 3, -10, 0, 10, -3, 0, 3]
  | BorderFilterType.kPrewitt => [-1, 0, 1, -1, 0, 1, -1, 0, 1]
  | BorderFilterType.kSobel => [-1, 0, 1, -2, 0, 2, -1, 0, 1]

/-- `border_filter_kernel(kernel, direction, type)`: the `3 x 3` kernel, transposed for
`direction == 1`. -/
def border_filter_kernel (direction : Int) (type : BorderFilterType) : Mat Flt :=
  let kernel : Mat Flt :=
    ⟨3, 3, fun r c => Flt.fin ((border_filter_Gx type).getD (3 * r + c) 0)⟩
  if direction = 1 then kernel.t else kernel

/-- `cv::addWeighted(src1, alpha, src2, beta, gamma, dst)` on 8-bit rasters:
`dst = saturate(src1 * alpha + src2 * beta + gamma)`. -/
def addWeighted (src1 : Mat Nat) (alpha : Flt) (src2 : Mat Nat) (beta gamma : Flt) : Mat Nat :=
  { rows := src1.rows
    cols := src1.cols
    data := fun y x =>
      saturate_cast_uchar
        (Flt.ofNat (src1.data y x) * alpha + Flt.ofNat (src2.data y x) * beta + gamma) }

/-- The mask-aware `border_filter(src, dst, mask, type)`. -/
def border_filter (src : Mat Nat) (mask : Mat Nat) (type : BorderFilterType) :
    Option (Mat Nat) :=
  match filter2d src (border_filter_kernel 0 type) mask,
    filter2d src (border_filter_kernel 1 type) mask with
  | some Gx8u, some Gy8u =>
    some (addWeighted Gx8u (Flt.fin (1 / 2)) Gy8u (Flt.fin (1 / 2)) (Flt.fin 0))
  | _, _ => none

/-- `cv::mean(m(rc))[0]`: the mean of the sub-raster, 0 for a sub-raster without pixels. -/
def cv_mean_rect (m : Mat Flt) (rc : Rect) : Flt :=
  if rc.area = 0 then Flt.fin 0 else rect_sum m rc / Flt.ofInt rc.area

/-- The corners `(x1, y1)` and `(x2, y2)` of the window of scale `n` at pixel `(x, y)`. -/
def scale_corners (width height : Int) (x y : Int) (n : Nat) : Point × Point :=
  (⟨max 0 (x - n), max 0 (y - n)⟩, ⟨min (x + n) (width - 1), min (y + n) (height - 1)⟩)

/-- Both corners of the window of a scale are mask-valid (always so without a mask). -/
def corners_valid (mask : Mat Nat) (c : Point × Point) : Bool :=
  !(!mask.empty && mask.get c.1.y c.1.x == 0) && !(!mask.empty && mask.get c.2.y c.2.x == 0)

/-- The value `l_diff + a_diff + b_diff` that one scale of `saliency_color` adds to
`cv_sum`. -/
def saliency_color_contribution (L A B : Mat Flt) (c : Point × Point) (y x : Nat) : Flt :=
  let rc := Rect.ofPoints c.1 c.2
  let l_diff := (L.data y x - cv_mean_rect L rc) * (L.data y x - cv_mean_rect L rc)
  let a_diff := (A.data y x - cv_mean_rect A rc) * (A.data y x - cv_mean_rect A rc)
  let b_diff := (B.data y x - cv_mean_rect B rc) * (B.data y x - cv_mean_rect B rc)
  l_diff + a_diff + b_diff

/-- The scale loop of `saliency_color` at the pixel `(y, x)`, from the scales still to visit
and the current `cv_sum`; a masked-out corner executes `break`. -/
def saliency_color_loop (L A B : Mat Flt) (mask : Mat Nat) (y x : Nat) :
    List Nat → Flt → Flt
  | [], cv_sum => cv_sum
  | n :: ns, cv_sum =>
    let c := scale_corners L.cols L.rows x y n
    if !mask.empty && mask.get c.1.y c.1.x == 0 then cv_sum
    else if !mask.empty && mask.get c.2.y c.2.x == 0 then cv_sum
    else saliency_color_loop L A B mask y x ns (cv_sum + saliency_color_contribution L A B c y x)

/-- `saliency_color(src_arr, dst_arr, mask_arr)` from the point where the three channels
`L`, `A`, `B` (all of the size of `src`) exist: the colour conversion `rgb2lab` and
`split_channels` belong to ImageUtil.hpp, which is not among the sources, so their results
are the arguments. -/
def saliency_color (L A B : Mat Flt) (mask : Mat Nat) : Mat Flt :=
  { rows := L.rows
    cols := L.cols
    data := fun y x =>
      if y < L.rows ∧ x < L.cols then
        if !mask.empty && mask.data y x == 0 then Flt.fin 0
        else saliency_color_loop L A B mask y x (saliency_scales L.cols L.rows) (Flt.fin 0)
      else Flt.fin 0 }

/-- The scale sum as the specification words it: every scale whose two corners are
mask-valid contributes in full, every other scale contributes nothing, independently of the
scales before it. -/
def saliency_color_spec (L A B : Mat Flt) (mask : Mat Nat) (y x : Nat) : Flt :=
  (saliency_scales L.cols L.rows).foldl
    (fun cv_sum n =>
      if corners_valid mask (scale_corners L.cols L.rows x y n) then
        cv_sum + saliency_color_contribution L A B (scale_corners L.cols L.rows x y n) y x
      else cv_sum)
    (Flt.fin 0)

/-- The number of elements of `row_mean`: `std::vector<float> row_mean(end_row, 0)`. -/
def ExtractROI_row_mean_size (source_image : Mat Flt) (end_row : Int) : Nat :=
  (ExtractROI_end_row source_image end_row).toNat

/-- The call `ExtractROI(source_image, source_mask, roi_cart, roi_line, 0.005, 30,
source_image.rows-1)` with which `Apply` starts. -/
def Apply_ExtractROI (source_image : Mat Flt) (source_mask : Mat Nat) : Option ROIResult :=
  ExtractROI source_image source_mask (Flt.fin (1 / 200)) 30 ((source_image.rows : Int) - 1)

/-! ## Further definitions: `cv::Rect::contains`, the block loops of `saliency_mapping` -/

/-- `cv::Rect::contains(cv::Point(px, py))`: the right and bottom edges are exclusive. -/
def Rect.contains (r : Rect) (px py : Int) : Bool :=
  decide (r.x ≤ px ∧ px < r.x + r.width ∧ r.y ≤ py ∧ py < r.y + r.height)

/-- The rectangle lies inside an image of `w` columns and `h` rows. -/
def Rect.inside (r : Rect) (w h : Int) : Bool :=
  decide (0 ≤ r.x ∧ 0 ≤ r.width ∧ r.x + r.width ≤ w ∧
    0 ≤ r.y ∧ 0 ≤ r.height ∧ r.y + r.height ≤ h)

/-- The values taken by the control variable of `for (int i = i0; i < limit; i += step)`,
with at most `fuel` iterations; `none` when the fuel is used up while `i < limit` still
holds. -/
def stride_loop (limit step : Nat) : Nat → Nat → Option (List Nat)
  | 0, i => if i < limit then none else some []
  | fuel + 1, i =>
    if i < limit then (stride_loop limit step fuel (i + step)).map (fun l => i :: l)
    else some []

/-- `block_width = width/block_count`. -/
def saliency_mapping_block_width (src : Mat Flt) (block_count : Nat) : Nat :=
  src.cols / block_count

/-- `block_height = height/block_count`. -/
def saliency_mapping_block_height (src : Mat Flt) (block_count : Nat) : Nat :=
  src.rows / block_count

/-- `number_of_rows = (height-block_height)/(block_height/2)+1`. -/
def saliency_mapping_number_of_rows (src : Mat Flt) (block_count : Nat) : Nat :=
  (src.rows - saliency_mapping_block_height src block_count) /
    (saliency_mapping_block_height src block_count / 2) + 1

/-- `number_of_cols = (width-block_width)/(block_width/2)+1`. -/
def saliency_mapping_number_of_cols (src : Mat Flt) (block_count : Nat) : Nat :=
  (src.cols - saliency_mapping_block_width src block_count) /
    (saliency_mapping_block_width src block_count / 2) + 1

/-- `total_blocks = number_of_rows*number_of_cols`. -/
def saliency_mapping_total_blocks (src : Mat Flt) (block_count : Nat) : Nat :=
  saliency_mapping_number_of_rows src block_count *
    saliency_mapping_number_of_cols src block_count

/-- The variables `idx`, `rects` and `means` of `saliency_mapping`. -/
structure BlockState where
  idx : Nat
  rects : List Rect
  means : List Flt

/-- The body of the block-enumeration loops of `saliency_mapping` for the block at column
`j`, row `i`: the block and its mean are stored at `idx`, then `idx++`. -/
def saliency_mapping_store (integral : Mat Flt) (block_width block_height : Nat)
    (st : BlockState) (i j : Nat) : BlockState :=
  let rc : Rect := ⟨(j : Int), (i : Int), (block_width : Int), (block_height : Int)⟩
  { idx := st.idx + 1
    rects := st.rects.set st.idx rc
    means := st.means.set st.idx (integral_image_sum_rect integral rc / Flt.ofInt rc.area) }

/-- `saliency_mapping` up to the end of the nested block-enumeration loops (a non-negative
`block_count`): the final `idx`, `rects` and `means`.  `none` when the function does not get
there: an integer division by zero (`block_count`, `block_height/2` or `block_width/2` is 0),
or a loop that has not ended after `limit` iterations. -/
def saliency_mapping_blocks (src : Mat Flt) (block_count : Nat) : Option BlockState :=
  if block_count = 0 then none
  else if saliency_mapping_block_height src block_count / 2 = 0 ∨
      saliency_mapping_block_width src block_count / 2 = 0 then none
  else
    match stride_loop (src.rows - saliency_mapping_block_height src block_count)
        (saliency_mapping_block_height src block_count / 2)
        (src.rows - saliency_mapping_block_height src block_count) 0,
      stride_loop (src.cols - saliency_mapping_block_width src block_count)
        (saliency_mapping_block_width src block_count / 2)
        (src.cols - saliency_mapping_block_width src block_count) 0 with
    | some rows_i, some cols_j =>
      some (rows_i.foldl
        (fun st i => cols_j.foldl
          (fun st j => saliency_mapping_store (cv_integral src)
            (saliency_mapping_block_width src block_count)
            (saliency_mapping_block_height src block_count) st i j) st)
        { idx := 0
          rects := List.replicate (saliency_mapping_total_blocks src block_count) ⟨0, 0, 0, 0⟩
          means := List.replicate (saliency_mapping_total_blocks src block_count)
            (Flt.fin 0) })
    | _, _ => none

/-! ## Concrete inputs -/

/-- A `rows x cols` raster with every pixel equal to `c`. -/
def constMat (rows cols : Nat) (c : Flt) : Mat Flt := ⟨rows, cols, fun _ _ => c⟩

/-- A `rows x cols` 8-bit mask with every pixel equal to `v`. -/
def constMask (rows cols : Nat) (v : Nat) : Mat Nat := ⟨rows, cols, fun _ _ => v⟩

/-- A one-column image of four rows with pixels `9, 1, 1, 0` from the top. -/
def roiImage : Mat Flt :=
  ⟨4, 1, fun y _ => if y = 0 then Flt.fin 9 else if y = 3 then Flt.fin 0 else Flt.fin 1⟩

/-- An empty float raster, the state of a fresh `cv::Mat` output argument. -/
def emptyMat : Mat Flt := ⟨0, 0, fun _ _ => Flt.fin 0⟩

/-- A `7 x 7` raster of `1/2`. -/
def sevenImage : Mat Flt := constMat 7 7 (Flt.fin (1 / 2))

/-- A `8 x 8` raster of `1/2`. -/
def eightImage : Mat Flt := constMat 8 8 (Flt.fin (1 / 2))

/-- A full mask for `roiImage`. -/
def roiMask : Mat Nat := constMask 4 1 255

/-- A `31 x 2` raster of `1/2`. -/
def halfImage : Mat Flt := constMat 31 2 (Flt.fin (1 / 2))

/-- A `31 x 2` mask whose column 0 is valid and whose column 1 is masked out. -/
def leftMask : Mat Nat := ⟨31, 2, fun _ x => if x = 0 then 255 else 0⟩

/-- A `3 x 3` raster that is 1 at pixel `(0, 0)` and 0 elsewhere. -/
def spotImage : Mat Flt := ⟨3, 3, fun y x => if y = 0 ∧ x = 0 then Flt.fin 1 else Flt.fin 0⟩

/-- A `3 x 3` mask that is 0 at pixel `(0, 0)` and 255 elsewhere. -/
def spotMask : Mat Nat := ⟨3, 3, fun y x => if y = 0 ∧ x = 0 then 0 else 255⟩

/-- A `3 x 3` raster of `1/2`. -/
def halfImage3 : Mat Flt := constMat 3 3 (Flt.fin (1 / 2))

/-- A `3 x 3` 8-bit raster with every pixel 10. -/
def tenImage : Mat Nat := constMask 3 3 10

/-- A `2 x 3` kernel (two rows, three columns) of ones: not square. -/
def wideKernel : Mat Flt := constMat 2 3 (Flt.fin 1)

/-- A `9 x 9` raster that is 1 at pixel `(8, 8)` and 0 elsewhere. -/
def cornerImage : Mat Flt := ⟨9, 9, fun y x => if y = 8 ∧ x = 8 then Flt.fin 1 else Flt.fin 0⟩

/-- A `4 x 4` channel that is 1 at pixel `(1, 1)` and 0 elsewhere. -/
def spotChannel : Mat Flt := ⟨4, 4, fun y x => if y = 1 ∧ x = 1 then Flt.fin 1 else Flt.fin 0⟩

/-- A `4 x 4` channel of zeros. -/
def zeroChannel : Mat Flt := constMat 4 4 (Flt.fin 0)

/-- A `4 x 4` mask that is 0 at pixel `(3, 3)` and 255 elsewhere. -/
def cornerMask : Mat Nat := ⟨4, 4, fun y x => if y = 3 ∧ x = 3 then 0 else 255⟩

/-- A one-column image of four rows with every pixel 1. -/
def onesImage : Mat Flt := constMat 4 1 (Flt.fin 1)

/-- A one-column mask of four rows whose last row is masked out. -/
def bottomMask : Mat Nat := ⟨4, 1, fun y _ => if y = 3 then 0 else 255⟩

/-- A one-column image of 32 rows with every pixel 1. -/
def tallImage : Mat Flt := constMat 32 1 (Flt.fin 1)

/-- A full mask for `tallImage`. -/
def tallMask : Mat Nat := constMask 32 1 255

/-- A `5 x 5` 8-bit raster with every pixel 10. -/
def tenImage5 : Mat Nat := constMask 5 5 10

/-! ## Machine-integer lemmas -/

theorem toU32_of_nonneg (i : Int) (h0 : 0 ≤ i) (h1 : i < 4294967296) :
    toU32 i = i.toNat := by
  unfold toU32
  rw [Int.emod_eq_of_lt h0 h1]

theorem toU32_natCast (n : Nat) (h : n < 4294967296) : toU32 (n : Int) = n := by
  rw [toU32_of_nonneg _ (by omega) (by omega)]
  simp

theorem toI32_of_small (n : Nat) (h : n < 2147483648) : toI32 n = (n : Int) := by
  unfold toI32
  have h1 : n % 4294967296 = n := Nat.mod_eq_of_lt (by omega)
  rw [h1, if_pos h]

/-! ## Floating-point lemmas -/

theorem Flt.add_fin (a b : ℚ) : Flt.fin a + Flt.fin b = Flt.fin (a + b) := rfl

theorem Flt.sub_fin (a b : ℚ) : Flt.fin a - Flt.fin b = Flt.fin (a - b) := by
  show Flt.add (Flt.fin a) (Flt.neg (Flt.fin b)) = _
  simp [Flt.add, Flt.neg, sub_eq_add_neg]

theorem Flt.mul_fin (a b : ℚ) : Flt.fin a * Flt.fin b = Flt.fin (a * b) := rfl

theorem Flt.div_fin (a b : ℚ) (hb : b ≠ 0) : Flt.fin a / Flt.fin b = Flt.fin (a / b) := by
  show Flt.div (Flt.fin a) (Flt.fin b) = _
  simp [Flt.div, hb]

theorem Flt.lt_one_clamp (v : Flt) :
    Flt.lt (Flt.fin 1) (if Flt.lt (Flt.fin 1) v then Flt.fin 1 else v) = false := by
  by_cases h : Flt.lt (Flt.fin 1) v = true
  · rw [if_pos h]; simp [Flt.lt]
  · rw [if_neg h]; simpa using h

theorem Flt.le_of_not_lt (v : Flt) (h : Flt.lt (Flt.fin 1) v = false) :
    Flt.le v (Flt.fin 1) = true ∨ v = Flt.nan := by
  cases v with
  | fin q =>
    left
    simp only [Flt.lt, decide_eq_false_iff_not, not_lt] at h
    simpa [Flt.le] using h
  | pinf => simp [Flt.lt] at h
  | ninf => left; rfl
  | nan => right; rfl

/-! ## Vector loops -/

theorem foldl_set_length {α : Type} (c : Nat → Prop) [DecidablePred c] (f : Nat → α) :
    ∀ (idxs : List Nat) (v : List α),
      (idxs.foldl (fun v i => if c i then v.set i (f i) else v) v).length = v.length := by
  intro idxs
  induction idxs with
  | nil => intro v; rfl
  | cons i is ih =>
    intro v
    rw [List.foldl_cons, ih]
    split_ifs
    · exact List.length_set _ _ _
    · rfl

theorem foldl_set_getElem? {α : Type} (c : Nat → Prop) [DecidablePred c] (f : Nat → α) :
    ∀ (idxs : List Nat) (v : List α) (j : Nat),
      (idxs.foldl (fun v i => if c i then v.set i (f i) else v) v)[j]? =
        if j ∈ idxs ∧ c j ∧ j < v.length then some (f j) else v[j]? := by
  intro idxs
  induction idxs with
  | nil => intro v j; simp
  | cons i is ih =>
    intro v j
    rw [List.foldl_cons, ih]
    by_cases hc : c i
    · rw [if_pos hc, List.length_set, List.getElem?_set]
      by_cases hij : i = j
      · subst hij
        by_cases hlen : i < v.length
        · simp [hc, hlen]
        · have : v[i]? = none := List.getElem?_eq_none (by omega)
          simp [hlen, this]
      · have hji : ¬ j = i := fun h => hij h.symm
        simp [hij, hji]
    · rw [if_neg hc]
      by_cases hij : j = i
      · subst hij
        simp [hc]
      · simp [hij]

/-! ## Lemmas on `insonification_correction` -/

theorem sumTo_congr (n : Nat) (f g : Nat → Flt) (h : ∀ i, i < n → f i = g i) :
    sumTo n f = sumTo n g := by
  induction n with
  | zero => rfl
  | succ k ih =>
    show sumTo k f + f k = sumTo k g + g k
    rw [ih (fun i hi => h i (by omega)), h k (by omega)]

theorem insonification_row_mean_length (src : Mat Flt) (mask : Mat Nat) :
    (insonification_row_mean src mask).length = src.rows := by
  have h := foldl_set_length (fun i => cv_countNonZero_row mask i ≠ 0)
    (fun i => Flt.nanToZero (cv_sum_row src i / Flt.ofNat (cv_countNonZero_row mask i)))
    (List.range' 30 (src.rows - 30)) (List.replicate src.rows (Flt.fin 0))
  rw [List.length_replicate] at h
  exact h

theorem insonification_row_mean_getElem? (src : Mat Flt) (mask : Mat Nat) (i : Nat) :
    (insonification_row_mean src mask)[i]? =
      if i < src.rows then
        some (if 30 ≤ i ∧ cv_countNonZero_row mask i ≠ 0 then
          Flt.nanToZero (cv_sum_row src i / Flt.ofNat (cv_countNonZero_row mask i))
        else Flt.fin 0)
      else none := by
  have h := foldl_set_getElem? (fun i => cv_countNonZero_row mask i ≠ 0)
    (fun i => Flt.nanToZero (cv_sum_row src i / Flt.ofNat (cv_countNonZero_row mask i)))
    (List.range' 30 (src.rows - 30)) (List.replicate src.rows (Flt.fin 0)) i
  simp only [List.length_replicate, List.getElem?_replicate, List.mem_range'_1] at h
  refine Eq.trans h ?_
  by_cases hi : i < src.rows
  · by_cases h30 : 30 ≤ i
    · have h31 : i < 30 + (src.rows - 30) := by omega
      by_cases hc : cv_countNonZero_row mask i = 0
      · simp [hi, h30, hc]
      · simp [hi, h30, hc, h31]
    · simp [hi, h30]
  · simp [hi]

theorem max_element_isSome (v : List Flt) (h : 0 < v.length) : ∃ m, max_element v = some m := by
  cases v with
  | nil => simp at h
  | cons a as => exact ⟨_, rfl⟩

theorem min_element_isSome (v : List Flt) (h : 0 < v.length) : ∃ m, min_element v = some m := by
  cases v with
  | nil => simp at h
  | cons a as => exact ⟨_, rfl⟩

/-- The pixel of the final `dst`, given the maximum row mean. -/
theorem insonification_correction_eq (src : Mat Flt) (mask : Mat Nat) (hrows : 0 < src.rows)
    (hsize : mask.rows = src.rows ∧ mask.cols = src.cols) :
    ∃ max_mean, max_element (insonification_row_mean src mask) = some max_mean ∧
      insonification_correction src mask = some
        { rows := src.rows
          cols := src.cols
          data := fun y x =>
            if Flt.lt (Flt.fin 1)
                (if 30 ≤ y ∧ y < src.rows ∧
                    (insonification_row_mean src mask).getD y (Flt.fin 0) ≠ Flt.fin 0 then
                  src.data y x *
                    (max_mean / (insonification_row_mean src mask).getD y (Flt.fin 0))
                else src.data y x) = true
            then Flt.fin 1
            else
              (if 30 ≤ y ∧ y < src.rows ∧
                  (insonification_row_mean src mask).getD y (Flt.fin 0) ≠ Flt.fin 0 then
                src.data y x *
                  (max_mean / (insonification_row_mean src mask).getD y (Flt.fin 0))
              else src.data y x) } := by
  obtain ⟨m, hm⟩ := max_element_isSome (insonification_row_mean src mask)
    (by rw [insonification_row_mean_length]; exact hrows)
  refine ⟨m, hm, ?_⟩
  unfold insonification_correction
  rw [if_neg (by omega)]
  simp only [hm]

/-! ## Finite values -/

theorem Flt.isFinite_iff (v : Flt) : v.isFinite = true ↔ ∃ q, v = Flt.fin q := by
  cases v <;> simp [Flt.isFinite]

theorem sumTo_finite (n : Nat) (f : Nat → Flt) (h : ∀ i, i < n → (f i).isFinite = true) :
    ∃ q, sumTo n f = Flt.fin q := by
  induction n with
  | zero => exact ⟨0, rfl⟩
  | succ k ih =>
    obtain ⟨a, ha⟩ := ih (fun i hi => h i (by omega))
    obtain ⟨b, hb⟩ := (Flt.isFinite_iff _).1 (h k (by omega))
    refine ⟨a + b, ?_⟩
    show sumTo k f + f k = _
    rw [ha, hb, Flt.add_fin]

theorem max_element_mem (v : List Flt) (m : Flt) (h : max_element v = some m) : m ∈ v := by
  cases v with
  | nil => simp [max_element] at h
  | cons a as =>
    simp only [max_element, Option.some.injEq] at h
    subst h
    have key : ∀ (l : List Flt) (b : Flt),
        l.foldl (fun largest e => if Flt.lt largest e then e else largest) b = b ∨
        l.foldl (fun largest e => if Flt.lt largest e then e else largest) b ∈ l := by
      intro l
      induction l with
      | nil => intro b; left; rfl
      | cons c cs ih =>
        intro b
        rw [List.foldl_cons]
        rcases ih (if Flt.lt b c then c else b) with h1 | h1
        · rw [h1]
          split_ifs
          · right; exact List.mem_cons_self _ _
          · left; rfl
        · right; exact List.mem_cons_of_mem _ h1
    rcases key as a with h1 | h1
    · rw [h1]; exact List.mem_cons_self _ _
    · exact List.mem_cons_of_mem _ h1

theorem insonification_row_mean_finite (src : Mat Flt) (mask : Mat Nat)
    (hfin : ∀ y x, y < src.rows → x < src.cols → (src.data y x).isFinite = true)
    (v : Flt) (hv : v ∈ insonification_row_mean src mask) : ∃ q, v = Flt.fin q := by
  obtain ⟨i, hi, rfl⟩ := List.getElem_of_mem hv
  have h1 := insonification_row_mean_getElem? src mask i
  rw [List.getElem?_eq_getElem hi] at h1
  have hlt : i < src.rows := by rw [insonification_row_mean_length] at hi; exact hi
  rw [if_pos hlt] at h1
  have h2 := Option.some.inj h1
  rw [h2]
  split_ifs with hc
  · obtain ⟨s, hs⟩ := sumTo_finite src.cols (fun x => src.data i x) (fun x hx => hfin i x hlt hx)
    have hne : ((cv_countNonZero_row mask i : Nat) : ℚ) ≠ 0 := by exact_mod_cast hc.2
    refine ⟨s / (cv_countNonZero_row mask i : ℚ), ?_⟩
    unfold cv_sum_row Flt.ofNat
    rw [hs, Flt.div_fin _ _ hne]
    rfl
  · exact ⟨0, rfl⟩

/-! ## Lemmas on `ExtractROI` -/

theorem foldl_set_all_length {α : Type} (f : Nat → α) (idxs : List Nat) (v : List α) :
    (idxs.foldl (fun v i => v.set i (f i)) v).length = v.length := by
  have h := foldl_set_length (fun _ => True) f idxs v
  simpa using h

theorem foldl_set_all_getElem? {α : Type} (f : Nat → α) (idxs : List Nat) (v : List α)
    (j : Nat) :
    (idxs.foldl (fun v i => v.set i (f i)) v)[j]? =
      if j ∈ idxs ∧ j < v.length then some (f j) else v[j]? := by
  have h := foldl_set_getElem? (fun _ => True) f idxs v j
  simpa using h

theorem ExtractROI_row_mean_length (img : Mat Flt) (mask : Mat Nat) (s e : Int) :
    (ExtractROI_row_mean img mask s e).length = (ExtractROI_end_row img e).toNat := by
  unfold ExtractROI_row_mean
  rw [foldl_set_all_length, List.length_replicate]

theorem partial_sum_from_length (acc : Flt) (v : List Flt) :
    (partial_sum_from acc v).length = v.length := by
  induction v generalizing acc with
  | nil => rfl
  | cons a as ih => simp [partial_sum_from, ih]

theorem partial_sum_length (v : List Flt) : (partial_sum v).length = v.length := by
  cases v with
  | nil => rfl
  | cons a as => simp [partial_sum, partial_sum_from_length]

theorem ExtractROI_accum_sum_length (img : Mat Flt) (mask : Mat Nat) (s e : Int) :
    (ExtractROI_accum_sum img mask s e).length = (ExtractROI_end_row img e).toNat := by
  unfold ExtractROI_accum_sum
  rw [partial_sum_length, ExtractROI_row_mean_length]

theorem find_greater_zero_le (v : List Flt) : find_greater_zero v ≤ v.length :=
  List.findIdx_le_length _

theorem replace_less_length (t : Flt) (v : List Flt) : (replace_less t v).length = v.length := by
  simp [replace_less]

/-- A successful call: the extrema exist, the trimmed block of `k + 1` rows fits the mask,
and the three results are determined by `k`, the position found by `std::find_if`. -/
theorem ExtractROI_eq (img : Mat Flt) (mask : Mat Nat) (alpha : Flt) (s e : Int)
    (res : ROIResult) (he : e < 2147483648) (himg : img.rows < 2147483648)
    (hmask : mask.rows < 2147483648) (h : ExtractROI img mask alpha s e = some res) :
    ∃ mn mx, min_element (ExtractROI_accum_sum img mask s e) = some mn ∧
      max_element (ExtractROI_accum_sum img mask s e) = some mx ∧
      find_greater_zero (replace_less (ExtractROI_thresh alpha mn mx)
        (ExtractROI_accum_sum img mask s e)) + 1 ≤ mask.rows ∧
      res.roi_line = mask.rows - (find_greater_zero (replace_less (ExtractROI_thresh alpha mn mx)
        (ExtractROI_accum_sum img mask s e)) + 1) ∧
      res.roi_cart.rows = mask.rows ∧ res.roi_cart.cols = mask.cols ∧
      res.source_mask = res.roi_cart ∧
      ∀ y x, y < mask.rows → x < mask.cols →
        res.roi_cart.data y x = if res.roi_line ≤ y then 0 else mask.data y x := by
  unfold ExtractROI at h
  split_ifs at h with hscan
  generalize hacc : ExtractROI_accum_sum img mask s e = accum at h ⊢
  have hlen : accum.length = (ExtractROI_end_row img e).toNat := by
    rw [← hacc]; exact ExtractROI_accum_sum_length img mask s e
  have hend : (ExtractROI_end_row img e).toNat < 2147483648 := by
    unfold ExtractROI_end_row
    split_ifs <;> omega
  cases hmin : min_element accum with
  | none => simp [hmin] at h
  | some mn =>
    cases hmax : max_element accum with
    | none => simp [hmin, hmax] at h
    | some mx =>
      simp only [hmin, hmax] at h
      have hk : find_greater_zero (replace_less (ExtractROI_thresh alpha mn mx) accum) ≤
          accum.length := by
        have := find_greater_zero_le (replace_less (ExtractROI_thresh alpha mn mx) accum)
        rwa [replace_less_length] at this
      refine ⟨mn, mx, rfl, rfl, ?_⟩
      generalize find_greater_zero (replace_less (ExtractROI_thresh alpha mn mx) accum) = k
        at h hk ⊢
      split_ifs at h with hrect
      have hres := Option.some.inj h
      have hk2 : (k + 1) % 4294967296 = k + 1 := Nat.mod_eq_of_lt (by omega)
      rw [hk2] at hrect
      have hfit : k + 1 ≤ mask.rows := by
        unfold toI32 toU32 at hrect
        obtain ⟨h1, h2, h3⟩ := hrect
        split_ifs at h1 h2 h3 <;> omega
      have hline : toU32 ((mask.rows : Int) - ((k + 1 : Nat) : Int)) = mask.rows - (k + 1) := by
        unfold toU32
        omega
      have hy : toI32 (mask.rows - (k + 1)) = ((mask.rows - (k + 1) : Nat) : Int) :=
        toI32_of_small _ (by omega)
      have hh : toI32 (k + 1) = ((k + 1 : Nat) : Int) := toI32_of_small _ (by omega)
      refine ⟨hfit, ?_, ?_, ?_, ?_, ?_⟩
      · rw [← hres]; simp only [hk2, hline]
      · rw [← hres]
      · rw [← hres]
      · rw [← hres]
      · intro y x hy1 hx1
        rw [← hres]
        simp only [hk2, hline, hy, hh]
        by_cases hc : mask.rows - (k + 1) ≤ y
        · have hc2 : ((mask.rows - (k + 1) : Nat) : Int) ≤ (y : Int) ∧
              (y : Int) < ((mask.rows - (k + 1) : Nat) : Int) + ((k + 1 : Nat) : Int) ∧
              x < mask.cols := ⟨by omega, by omega, hx1⟩
          rw [if_pos hc2, if_pos hc]
        · have hc2 : ¬ (((mask.rows - (k + 1) : Nat) : Int) ≤ (y : Int) ∧
              (y : Int) < ((mask.rows - (k + 1) : Nat) : Int) + ((k + 1 : Nat) : Int) ∧
              x < mask.cols) := fun h => hc (by omega)
          rw [if_neg hc2, if_neg hc]

theorem ExtractROI_row_mean_getElem? (img : Mat Flt) (mask : Mat Nat) (s e : Int) (i : Nat)
    (hi : i < (ExtractROI_end_row img e).toNat) :
    (ExtractROI_row_mean img mask s e)[i]? =
      some (if 0 ≤ s ∧ s ≤ (i : Int) then ExtractROI_row_value img mask i else Flt.fin 0) := by
  unfold ExtractROI_row_mean
  rw [foldl_set_all_getElem?, List.length_replicate, List.getElem?_replicate]
  unfold ExtractROI_scan
  by_cases hs : s < 0
  · have h1 : ¬ (0 ≤ s ∧ s ≤ (i : Int)) := fun h => by omega
    simp [hs, hi, h1]
  · by_cases hsi : s ≤ (i : Int)
    · have h1 : (0 ≤ s ∧ s ≤ (i : Int)) := ⟨by omega, hsi⟩
      have h2 : s.toNat ≤ i ∧ i < s.toNat + ((ExtractROI_end_row img e).toNat + 1 - s.toNat) :=
        ⟨by omega, by omega⟩
      simp [hs, hi, h1, List.mem_range'_1, h2]
    · have h1 : ¬ (0 ≤ s ∧ s ≤ (i : Int)) := fun h => hsi h.2
      have h2 : ¬ (s.toNat ≤ i) := by omega
      simp [hs, hi, h1, List.mem_range'_1, h2]

theorem replace_less_getElem? (t : Flt) (v : List Flt) (j : Nat) :
    (replace_less t v)[j]? = (v[j]?).map (fun e => if Flt.lt e t then Flt.fin 0 else e) := by
  unfold replace_less
  exact List.getElem?_map _ _ _

/-- The position found by `std::find_if` after `std::replace_if`: the first element that
is not below the threshold and is above 0. -/
theorem find_greater_zero_replace_less (t : Flt) (v : List Flt) :
    (∀ j w, j < find_greater_zero (replace_less t v) → v[j]? = some w →
      (Flt.lt w t = true ∨ Flt.lt (Flt.fin 0) w = false)) ∧
    (∀ w, v[find_greater_zero (replace_less t v)]? = some w →
      (Flt.lt w t = false ∧ Flt.lt (Flt.fin 0) w = true)) := by
  constructor
  · intro j w hj hw
    have h1 := List.not_of_lt_findIdx hj
    have hjl : j < (replace_less t v).length :=
      lt_of_lt_of_le hj (List.findIdx_le_length _)
    have h2 : (replace_less t v)[j]? = some (if Flt.lt w t then Flt.fin 0 else w) := by
      rw [replace_less_getElem?, hw]; rfl
    rw [List.getElem?_eq_getElem hjl] at h2
    rw [Option.some.inj h2] at h1
    by_cases hc : Flt.lt w t = true
    · left; exact hc
    · right
      rw [if_neg hc] at h1
      exact h1
  · intro w hw
    have hlt : find_greater_zero (replace_less t v) < (replace_less t v).length := by
      rw [replace_less_length]
      by_contra hcon
      rw [List.getElem?_eq_none (by omega)] at hw
      exact Option.noConfusion hw
    have h1 : (fun e => Flt.lt (Flt.fin 0) e)
        ((replace_less t v)[find_greater_zero (replace_less t v)]) = true :=
      List.findIdx_getElem
    have h2 : (replace_less t v)[find_greater_zero (replace_less t v)]? =
        some (if Flt.lt w t then Flt.fin 0 else w) := by
      rw [replace_less_getElem?, hw]; rfl
    rw [List.getElem?_eq_getElem hlt] at h2
    rw [Option.some.inj h2] at h1
    by_cases hc : Flt.lt w t = true
    · rw [if_pos hc] at h1
      simp [Flt.lt] at h1
    · rw [if_neg hc] at h1
      exact ⟨by simpa using hc, h1⟩

/-! ## Lemmas on windows and the integral image -/

/-- The window of an image pixel for a radius `n >= 0`: its left/top edge, its exclusive
right/bottom edge, and its position inside the image. -/
theorem neighborhood_rect_bounds (x y n w h : Int) (hn : 0 ≤ n) (hx0 : 0 ≤ x) (hxw : x < w)
    (hy0 : 0 ≤ y) (hyh : y < h) :
    0 ≤ (neighborhood_rect x y n w h).x ∧
    0 ≤ (neighborhood_rect x y n w h).y ∧
    0 ≤ (neighborhood_rect x y n w h).width ∧
    0 ≤ (neighborhood_rect x y n w h).height ∧
    (neighborhood_rect x y n w h).x + (neighborhood_rect x y n w h).width ≤ w - 1 ∧
    (neighborhood_rect x y n w h).y + (neighborhood_rect x y n w h).height ≤ h - 1 := by
  simp only [neighborhood_rect, clip_rect, Rect.ofPoints]
  omega

/-- For a radius `n >= 1` and an image of at least two columns and two rows the window has
positive width and height. -/
theorem neighborhood_rect_pos (x y n w h : Int) (hn : 1 ≤ n) (hx0 : 0 ≤ x) (hxw : x < w)
    (hy0 : 0 ≤ y) (hyh : y < h) (hw : 2 ≤ w) (hh : 2 ≤ h) :
    1 ≤ (neighborhood_rect x y n w h).width ∧ 1 ≤ (neighborhood_rect x y n w h).height := by
  simp only [neighborhood_rect, clip_rect, Rect.ofPoints]
  omega

theorem cv_integral_get (src : Mat Flt) (Y X : Nat) :
    (cv_integral src).get (Y : Int) (X : Int) =
      sumTo Y (fun y => sumTo X (fun x => src.data y x)) := by
  simp [Mat.get, cv_integral]

theorem sumTo_const (n : Nat) (q : ℚ) : sumTo n (fun _ => Flt.fin q) = Flt.fin (n * q) := by
  induction n with
  | zero => simp [sumTo]
  | succ k ih =>
    show sumTo k (fun _ => Flt.fin q) + Flt.fin q = _
    rw [ih, Flt.add_fin]
    congr 1
    push_cast
    ring

/-- The integral image of a raster that is constant `q` holds `Y * X * q` at `(Y, X)`. -/
theorem cv_integral_const (src : Mat Flt) (q : ℚ)
    (hconst : ∀ y x, y < src.rows → x < src.cols → src.data y x = Flt.fin q)
    (Y X : Nat) (hY : Y ≤ src.rows) (hX : X ≤ src.cols) :
    (cv_integral src).get (Y : Int) (X : Int) = Flt.fin ((Y : ℚ) * ((X : ℚ) * q)) := by
  rw [cv_integral_get]
  have h1 : sumTo Y (fun y => sumTo X (fun x => src.data y x)) =
      sumTo Y (fun _ => Flt.fin ((X : ℚ) * q)) := by
    apply sumTo_congr
    intro y hy
    rw [← sumTo_const]
    apply sumTo_congr
    intro x hx
    exact hconst y x (by omega) (by omega)
  rw [h1, sumTo_const]

/-- The integral image of a raster of finite pixels is finite. -/
theorem cv_integral_finite (src : Mat Flt)
    (hfin : ∀ y x, y < src.rows → x < src.cols → (src.data y x).isFinite = true)
    (Y X : Nat) (hY : Y ≤ src.rows) (hX : X ≤ src.cols) :
    ∃ q, (cv_integral src).get (Y : Int) (X : Int) = Flt.fin q := by
  rw [cv_integral_get]
  apply sumTo_finite
  intro y hy
  rw [Flt.isFinite_iff]
  apply sumTo_finite
  intro x hx
  exact hfin y x (by omega) (by omega)

/-- The region sum of a constant raster is the constant times the number of pixels. -/
theorem integral_image_sum_const (src : Mat Flt) (q : ℚ)
    (hconst : ∀ y x, y < src.rows → x < src.cols → src.data y x = Flt.fin q)
    (x1 y1 x2 y2 : Int) (hx1 : 0 ≤ x1) (hx : x1 ≤ x2) (hx2 : x2 ≤ src.cols)
    (hy1 : 0 ≤ y1) (hy : y1 ≤ y2) (hy2 : y2 ≤ src.rows) :
    integral_image_sum (cv_integral src) x1 y1 x2 y2 =
      Flt.fin (q * (((x2 - x1) * (y2 - y1) : Int) : ℚ)) := by
  lift x1 to ℕ using hx1
  lift y1 to ℕ using hy1
  lift x2 to ℕ using (le_trans (Int.ofNat_nonneg _) hx)
  lift y2 to ℕ using (le_trans (Int.ofNat_nonneg _) hy)
  have hx' : x1 ≤ x2 := by exact_mod_cast hx
  have hy' : y1 ≤ y2 := by exact_mod_cast hy
  have hx2' : x2 ≤ src.cols := by exact_mod_cast hx2
  have hy2' : y2 ≤ src.rows := by exact_mod_cast hy2
  unfold integral_image_sum
  rw [cv_integral_const src q hconst y2 x2 hy2' hx2',
    cv_integral_const src q hconst y1 x2 (by omega) hx2',
    cv_integral_const src q hconst y2 x1 hy2' (by omega),
    cv_integral_const src q hconst y1 x1 (by omega) (by omega)]
  rw [Flt.sub_fin, Flt.sub_fin, Flt.add_fin]
  congr 1
  push_cast
  ring

/-- The region sum of a raster of finite pixels is finite. -/
theorem integral_image_sum_finite (src : Mat Flt)
    (hfin : ∀ y x, y < src.rows → x < src.cols → (src.data y x).isFinite = true)
    (x1 y1 x2 y2 : Int) (hx1 : 0 ≤ x1) (hx : x1 ≤ x2) (hx2 : x2 ≤ src.cols)
    (hy1 : 0 ≤ y1) (hy : y1 ≤ y2) (hy2 : y2 ≤ src.rows) :
    ∃ q, integral_image_sum (cv_integral src) x1 y1 x2 y2 = Flt.fin q := by
  lift x1 to ℕ using hx1
  lift y1 to ℕ using hy1
  lift x2 to ℕ using (le_trans (Int.ofNat_nonneg _) hx)
  lift y2 to ℕ using (le_trans (Int.ofNat_nonneg _) hy)
  have hx' : x1 ≤ x2 := by exact_mod_cast hx
  have hy' : y1 ≤ y2 := by exact_mod_cast hy
  have hx2' : x2 ≤ src.cols := by exact_mod_cast hx2
  have hy2' : y2 ≤ src.rows := by exact_mod_cast hy2
  obtain ⟨a, ha⟩ := cv_integral_finite src hfin y2 x2 hy2' hx2'
  obtain ⟨b, hb⟩ := cv_integral_finite src hfin y1 x2 (by omega) hx2'
  obtain ⟨c, hc⟩ := cv_integral_finite src hfin y2 x1 hy2' (by omega)
  obtain ⟨d, hd⟩ := cv_integral_finite src hfin y1 x1 (by omega) (by omega)
  refine ⟨a - b - c + d, ?_⟩
  unfold integral_image_sum
  rw [ha, hb, hc, hd, Flt.sub_fin, Flt.sub_fin, Flt.add_fin]

/-- The mean of a constant raster over a region with at least one pixel is the constant. -/
theorem region_mean_const (src : Mat Flt) (q : ℚ)
    (hconst : ∀ y x, y < src.rows → x < src.cols → src.data y x = Flt.fin q)
    (x1 y1 x2 y2 : Int) (hx1 : 0 ≤ x1) (hx : x1 < x2) (hx2 : x2 ≤ src.cols)
    (hy1 : 0 ≤ y1) (hy : y1 < y2) (hy2 : y2 ≤ src.rows) :
    integral_image_sum (cv_integral src) x1 y1 x2 y2 /
      Flt.ofInt ((x2 - x1) * (y2 - y1)) = Flt.fin q := by
  rw [integral_image_sum_const src q hconst x1 y1 x2 y2 hx1 (le_of_lt hx) hx2 hy1
    (le_of_lt hy) hy2]
  have hpos : (0 : Int) < (x2 - x1) * (y2 - y1) :=
    Int.mul_pos (by omega) (by omega)
  have hne : (((x2 - x1) * (y2 - y1) : Int) : ℚ) ≠ 0 := by
    exact_mod_cast (ne_of_gt hpos)
  unfold Flt.ofInt
  rw [Flt.div_fin _ _ hne]
  congr 1
  exact mul_div_cancel_right₀ q hne

theorem Flt.inUnit_clamp (q : ℚ) :
    Flt.inUnit (if Flt.lt (Flt.fin q) (Flt.fin 0) then Flt.fin 0
      else if Flt.lt (Flt.fin 1) (Flt.fin q) then Flt.fin 1 else Flt.fin q) = true := by
  by_cases h0 : q < 0
  · simp [Flt.lt, Flt.inUnit, Flt.le, h0]
  · by_cases h1 : 1 < q
    · simp [Flt.lt, Flt.inUnit, Flt.le, h0, h1]
    · simp only [Flt.lt, Flt.inUnit, Flt.le, h0, h1, decide_False, Bool.false_eq_true, if_false,
        Bool.and_eq_true, decide_eq_true_eq]
      exact ⟨not_lt.1 h0, not_lt.1 h1⟩

theorem mask_test_false (mask : Mat Nat) (y x : Nat)
    (hmask : mask.empty = true ∨ mask.data y x ≠ 0) :
    (!mask.empty && mask.data y x == 0) = false := by
  rcases hmask with h | h
  · simp [h]
  · simp [h]

theorem saliency_scales_eq (w h : Nat) :
    saliency_scales w h = [min w h / 2, min w h / 4, min w h / 8] := rfl

/-- On a constant raster a scale of radius `n >= 1` adds nothing to `cv_sum`. -/
theorem saliency_gray_step_const (src : Mat Flt) (q c : ℚ)
    (hconst : ∀ y x, y < src.rows → x < src.cols → src.data y x = Flt.fin q)
    (x y : Nat) (hx : x < src.cols) (hy : y < src.rows) (hw : 2 ≤ src.cols) (hh : 2 ≤ src.rows)
    (n : Nat) (hn : 1 ≤ n) :
    saliency_gray_step (cv_integral src) src.cols src.rows x y (Flt.fin q) (Flt.fin c) n =
      Flt.fin c := by
  unfold saliency_gray_step
  simp only []
  rw [region_mean_const src q hconst _ _ _ _ (by omega) (by omega) (by omega) (by omega)
    (by omega) (by omega)]
  rw [Flt.sub_fin, Flt.mul_fin, Flt.add_fin]
  congr 1
  ring

/-! ## The summed-area identity -/

theorem Flt.eq_fin_toRat (v : Flt) (h : v.isFinite = true) : v = Flt.fin v.toRat := by
  cases v with
  | fin q => rfl
  | pinf => simp [Flt.isFinite] at h
  | ninf => simp [Flt.isFinite] at h
  | nan => simp [Flt.isFinite] at h

theorem sumTo_eq_fin (n : Nat) (f : Nat → Flt) (g : Nat → ℚ)
    (h : ∀ i, i < n → f i = Flt.fin (g i)) :
    sumTo n f = Flt.fin (∑ i in Finset.range n, g i) := by
  induction n with
  | zero => simp [sumTo]
  | succ k ih =>
    show sumTo k f + f k = _
    rw [ih (fun i hi => h i (by omega)), h k (by omega), Flt.add_fin, Finset.sum_range_succ]

/-- The integral image of a raster of finite pixels, as a rational double sum. -/
theorem cv_integral_eq_fin (src : Mat Flt)
    (hfin : ∀ y x, y < src.rows → x < src.cols → (src.data y x).isFinite = true)
    (Y X : Nat) (hY : Y ≤ src.rows) (hX : X ≤ src.cols) :
    (cv_integral src).get (Y : Int) (X : Int) =
      Flt.fin (∑ y in Finset.range Y, ∑ x in Finset.range X, (src.data y x).toRat) := by
  rw [cv_integral_get]
  apply sumTo_eq_fin
  intro y hy
  apply sumTo_eq_fin
  intro x hx
  exact Flt.eq_fin_toRat _ (hfin y x (by omega) (by omega))

/-- Four table corners give the double sum over the window (rational form). -/
theorem window_sum_identity (g : Nat → Nat → ℚ) (x1 y1 a b : Nat) :
    (∑ y in Finset.range (y1 + a), ∑ x in Finset.range (x1 + b), g y x) -
        (∑ y in Finset.range y1, ∑ x in Finset.range (x1 + b), g y x) -
        (∑ y in Finset.range (y1 + a), ∑ x in Finset.range x1, g y x) +
        (∑ y in Finset.range y1, ∑ x in Finset.range x1, g y x) =
      ∑ j in Finset.range a, ∑ i in Finset.range b, g (y1 + j) (x1 + i) := by
  simp only [Finset.sum_range_add, Finset.sum_add_distrib]
  ring

/-- The region query on the integral image of a raster of finite pixels returns the sum of
the pixels of the region. -/
theorem integral_image_sum_rect_eq (src : Mat Flt)
    (hfin : ∀ y x, y < src.rows → x < src.cols → (src.data y x).isFinite = true)
    (r : Rect) (hx : 0 ≤ r.x) (hy : 0 ≤ r.y) (hw : 0 ≤ r.width) (hh : 0 ≤ r.height)
    (hx2 : r.x + r.width ≤ src.cols) (hy2 : r.y + r.height ≤ src.rows) :
    integral_image_sum_rect (cv_integral src) r = rect_sum src r := by
  obtain ⟨rx, ry, rw, rh⟩ := r
  simp only at hx hy hw hh hx2 hy2
  lift rx to ℕ using hx
  lift ry to ℕ using hy
  lift rw to ℕ using hw
  lift rh to ℕ using hh
  have hx2' : rx + rw ≤ src.cols := by exact_mod_cast hx2
  have hy2' : ry + rh ≤ src.rows := by exact_mod_cast hy2
  unfold integral_image_sum_rect integral_image_sum rect_sum
  simp only [Int.toNat_ofNat]
  have e1 : ((rx : Int) + (rw : Int)) = ((rx + rw : Nat) : Int) := by push_cast; rfl
  have e2 : ((ry : Int) + (rh : Int)) = ((ry + rh : Nat) : Int) := by push_cast; rfl
  rw [e1, e2, cv_integral_eq_fin src hfin _ _ hy2' hx2',
    cv_integral_eq_fin src hfin ry _ (by omega) hx2',
    cv_integral_eq_fin src hfin _ rx hy2' (by omega),
    cv_integral_eq_fin src hfin ry rx (by omega) (by omega),
    Flt.sub_fin, Flt.sub_fin, Flt.add_fin, window_sum_identity]
  symm
  apply sumTo_eq_fin
  intro j hj
  apply sumTo_eq_fin
  intro i hi
  have e3 : ((ry : Int) + (j : Int)).toNat = ry + j := by omega
  have e4 : ((rx : Int) + (i : Int)).toNat = rx + i := by omega
  unfold Mat.get
  rw [e3, e4]
  exact Flt.eq_fin_toRat _ (hfin _ _ (by omega) (by omega))

/-- The window of a pixel of the image, for a radius `n >= 0`, lies inside the image. -/
theorem integral_image_sum_neighborhood (src : Mat Flt)
    (hfin : ∀ y x, y < src.rows → x < src.cols → (src.data y x).isFinite = true)
    (x y : Nat) (n : Int) (hn : 0 ≤ n) (hx : x < src.cols) (hy : y < src.rows) :
    integral_image_sum_rect (cv_integral src) (neighborhood_rect x y n src.cols src.rows) =
      rect_sum src (neighborhood_rect x y n src.cols src.rows) := by
  obtain ⟨b1, b2, b3, b4, b5, b6⟩ := neighborhood_rect_bounds x y n src.cols src.rows hn
    (by omega) (by omega) (by omega) (by omega)
  exact integral_image_sum_rect_eq src hfin _ b1 b2 b3 b4 (by omega) (by omega)

/-! ## Lemmas on `filter2d` -/

theorem foldl_count_inner (p : Nat → Prop) [DecidablePred p] (g : Flt → Nat → Flt) :
    ∀ (l : List Nat) (acc : Nat × Flt),
      (l.foldl (fun acc k => if p k then (acc.1 + 1, g acc.2 k) else acc) acc).1 ≤
          acc.1 + l.length ∧
      ((l.foldl (fun acc k => if p k then (acc.1 + 1, g acc.2 k) else acc) acc).1 =
          acc.1 + l.length ↔ ∀ k, k ∈ l → p k) := by
  intro l
  induction l with
  | nil => intro acc; simp
  | cons a as ih =>
    intro acc
    rw [List.foldl_cons]
    by_cases hp : p a
    · rw [if_pos hp]
      obtain ⟨h1, h2⟩ := ih (acc.1 + 1, g acc.2 a)
      simp only [List.length_cons, List.mem_cons, forall_eq_or_imp] at h1 h2 ⊢
      refine ⟨by omega, ?_⟩
      constructor
      · intro h
        exact ⟨hp, h2.1 (by omega)⟩
      · intro h
        have := h2.2 h.2
        omega
    · rw [if_neg hp]
      obtain ⟨h1, h2⟩ := ih acc
      simp only [List.length_cons, List.mem_cons, forall_eq_or_imp] at h1 h2 ⊢
      refine ⟨by omega, ?_⟩
      constructor
      · intro h
        omega
      · intro h
        exact absurd h.1 hp

theorem foldl_count_outer (p : Nat → Nat → Prop) [∀ a b, Decidable (p a b)]
    (g : Nat → Flt → Nat → Flt) (cols : Nat) :
    ∀ (l : List Nat) (acc : Nat × Flt),
      (l.foldl (fun acc ky => (List.range cols).foldl
          (fun acc kx => if p ky kx then (acc.1 + 1, g ky acc.2 kx) else acc) acc) acc).1 ≤
          acc.1 + l.length * cols ∧
      ((l.foldl (fun acc ky => (List.range cols).foldl
          (fun acc kx => if p ky kx then (acc.1 + 1, g ky acc.2 kx) else acc) acc) acc).1 =
          acc.1 + l.length * cols ↔ ∀ ky, ky ∈ l → ∀ kx, kx < cols → p ky kx) := by
  intro l
  induction l with
  | nil => intro acc; simp
  | cons a as ih =>
    intro acc
    rw [List.foldl_cons]
    obtain ⟨i1, i2⟩ := foldl_count_inner (p a) (g a) (List.range cols) acc
    rw [List.length_range] at i1 i2
    obtain ⟨h1, h2⟩ := ih ((List.range cols).foldl
      (fun acc kx => if p a kx then (acc.1 + 1, g a acc.2 kx) else acc) acc)
    have hlen : (a :: as).length * cols = cols + as.length * cols := by
      rw [List.length_cons, Nat.add_mul, Nat.one_mul, Nat.add_comm]
    rw [hlen]
    refine ⟨by omega, ?_⟩
    constructor
    · intro h ky hky kx hkx
      rcases List.mem_cons.1 hky with rfl | hmem
      · exact i2.1 (by omega) kx (List.mem_range.2 hkx)
      · exact h2.1 (by omega) ky hmem kx hkx
    · intro h
      have e1 := i2.2 (fun kx hkx => h a (List.mem_cons_self _ _) kx (List.mem_range.1 hkx))
      have e2 := h2.2 (fun ky hky kx hkx => h ky (List.mem_cons_of_mem _ hky) kx hkx)
      omega

/-- `mask_count == kernel_size` holds exactly when every pixel under the kernel is
mask-valid. -/
theorem filter2d_count_iff (src : Mat Nat) (kernel : Mat Flt) (mask : Mat Nat) (y x : Nat) :
    (filter2d_accumulate src kernel mask y x).1 = kernel.cols * kernel.rows ↔
      footprint_valid kernel mask y x := by
  have h := (foldl_count_outer
    (fun ky kx => mask.get ((y : Int) - ((kernel.rows / 2 : Nat) : Int) + (ky : Int))
      ((x : Int) - ((kernel.cols / 2 : Nat) : Int) + (kx : Int)) ≠ 0)
    (fun ky s kx => s + Flt.ofNat (src.get
      ((y : Int) - ((kernel.rows / 2 : Nat) : Int) + (ky : Int))
      ((x : Int) - ((kernel.cols / 2 : Nat) : Int) + (kx : Int))) * kernel.data ky kx)
    kernel.cols (List.range kernel.rows) (0, Flt.fin 0)).2
  rw [List.length_range, Nat.zero_add, Nat.mul_comm] at h
  unfold footprint_valid
  constructor
  · intro hc ky kx hky hkx
    exact h.1 hc ky (List.mem_range.2 hky) kx hkx
  · intro hv
    exact h.2 (fun ky hky kx hkx => hv ky kx (List.mem_range.1 hky) hkx)

/-- Inside the double loop of `filter2d` the footprint of a square kernel lies in the
image. -/
theorem filter2d_loop_inside (src : Mat Nat) (kernel : Mat Flt) (y x : Nat)
    (hsq : kernel.cols = kernel.rows)
    (hloop : kernel.cols / 2 ≤ y ∧ y + kernel.cols / 2 < src.rows ∧
      kernel.rows / 2 ≤ x ∧ x + kernel.rows / 2 < src.cols) :
    footprint_inside src kernel y x := by
  intro ky kx hky hkx
  rw [hsq] at hloop hkx
  rw [hsq]
  omega

theorem cvRound_zero : cvRound 0 = 0 := by decide!

theorem saturate_cast_uchar_zero : saturate_cast_uchar (Flt.fin 0) = 0 := by decide!

theorem border_filter_kernel_size (direction : Int) (type : BorderFilterType) :
    (border_filter_kernel direction type).rows = 3 ∧
    (border_filter_kernel direction type).cols = 3 := by
  unfold border_filter_kernel
  split_ifs <;> exact ⟨rfl, rfl⟩

/-- The raster produced by `filter2d` for a non-empty square kernel. -/
theorem filter2d_eq (src : Mat Nat) (kernel : Mat Flt) (mask : Mat Nat)
    (hne : kernel.empty = false) (hsq : kernel.cols = kernel.rows) :
    ∃ dst, filter2d src kernel mask = some dst ∧ dst.rows = src.rows ∧ dst.cols = src.cols ∧
      ∀ y x, (¬ footprint_valid kernel mask y x → dst.data y x = 0) ∧
        (¬ footprint_inside src kernel y x → dst.data y x = 0) := by
  unfold filter2d
  rw [if_neg (by simp [hne]), if_neg (by simp [hsq])]
  refine ⟨_, rfl, rfl, rfl, ?_⟩
  intro y x
  constructor
  · intro hv
    have hc : ¬ (filter2d_accumulate src kernel mask y x).1 = kernel.cols * kernel.rows :=
      fun h => hv ((filter2d_count_iff src kernel mask y x).1 h)
    simp only [hc, if_false]
    split_ifs <;> rfl
  · intro hi
    have hl : ¬ (kernel.cols / 2 ≤ y ∧ y + kernel.cols / 2 < src.rows ∧
        kernel.rows / 2 ≤ x ∧ x + kernel.rows / 2 < src.cols) :=
      fun h => hi (filter2d_loop_inside src kernel y x hsq h)
    simp only [hl, if_false]

/-! ## Lemmas on `saliency_color` -/

/-- The scale loop with `break` adds the contributions of the scales before the first scale
with a masked-out corner. -/
theorem saliency_color_loop_eq (L A B : Mat Flt) (mask : Mat Nat) (y x : Nat) :
    ∀ (scales : List Nat) (cv_sum : Flt),
      saliency_color_loop L A B mask y x scales cv_sum =
        (scales.takeWhile (fun n => corners_valid mask (scale_corners L.cols L.rows x y n))).foldl
          (fun s n => s + saliency_color_contribution L A B
            (scale_corners L.cols L.rows x y n) y x) cv_sum := by
  intro scales
  induction scales with
  | nil => intro cv_sum; rfl
  | cons n ns ih =>
    intro cv_sum
    unfold saliency_color_loop
    simp only [List.takeWhile_cons]
    by_cases h1 : (!mask.empty && mask.get (scale_corners L.cols L.rows x y n).1.y
        (scale_corners L.cols L.rows x y n).1.x == 0) = true
    · have hv : corners_valid mask (scale_corners L.cols L.rows x y n) = false := by
        unfold corners_valid
        rw [h1]; rfl
      rw [if_pos h1, hv]
      rfl
    · by_cases h2 : (!mask.empty && mask.get (scale_corners L.cols L.rows x y n).2.y
          (scale_corners L.cols L.rows x y n).2.x == 0) = true
      · have hv : corners_valid mask (scale_corners L.cols L.rows x y n) = false := by
          unfold corners_valid
          rw [h2]; simp
        rw [if_neg h1, if_pos h2, hv]
        rfl
      · have hv : corners_valid mask (scale_corners L.cols L.rows x y n) = true := by
          unfold corners_valid
          simp only [Bool.not_eq_true] at h1 h2
          rw [h1, h2]; rfl
        rw [if_neg h1, if_neg h2, hv, ih]
        rfl

/-! ## Lemmas on the scan loop of `ExtractROI` -/

theorem ExtractROI_scan_mem (img : Mat Flt) (s e : Int) (i : Nat) (hs : 0 ≤ s) :
    i ∈ ExtractROI_scan img s e ↔
      s.toNat ≤ i ∧ i ≤ (ExtractROI_end_row img e).toNat ∧
        s.toNat ≤ (ExtractROI_end_row img e).toNat := by
  unfold ExtractROI_scan
  rw [if_neg (by omega), List.mem_range'_1]
  omega

/-- A row without a mask-valid pixel whose pixel sum is a non-zero number gets an infinite
row value: `sum / 0` is `±inf`, which `std::isnan` lets through. -/
theorem ExtractROI_row_value_inf (img : Mat Flt) (mask : Mat Nat) (i : Nat) (q : ℚ)
    (hcount : cv_countNonZero_row mask (img.rows - i - 1) = 0)
    (hsum : cv_sum_row img (img.rows - i - 1) = Flt.fin q) (hq : q ≠ 0) :
    ExtractROI_row_value img mask i = Flt.pinf ∨
      ExtractROI_row_value img mask i = Flt.ninf := by
  unfold ExtractROI_row_value
  simp only [hcount, hsum, Flt.ofNat]
  show Flt.nanToZero (Flt.div (Flt.fin q) (Flt.fin ((0 : Nat) : ℚ))) = Flt.pinf ∨
    Flt.nanToZero (Flt.div (Flt.fin q) (Flt.fin ((0 : Nat) : ℚ))) = Flt.ninf
  by_cases hpos : 0 < q
  · left
    simp [Flt.div, hpos, Flt.nanToZero, Flt.isnan]
  · right
    have hneg : q < 0 := lt_of_le_of_ne (not_lt.1 hpos) hq
    simp [Flt.div, hpos, hneg, Flt.nanToZero, Flt.isnan]

/-! ## Lemmas on the kernel sums of `border_filter` -/

theorem foldl_sum_inner (p : Nat → Prop) [DecidablePred p] (g : Flt → Nat → Flt)
    (t : Nat → ℚ) :
    ∀ (l : List Nat) (acc : Nat × Flt) (a : ℚ), acc.2 = Flt.fin a →
      (∀ k, k ∈ l → p k) → (∀ k, k ∈ l → ∀ b, g (Flt.fin b) k = Flt.fin (b + t k)) →
      (l.foldl (fun acc k => if p k then (acc.1 + 1, g acc.2 k) else acc) acc).2 =
        Flt.fin (a + (l.map t).sum) := by
  intro l
  induction l with
  | nil => intro acc a ha _ _; simpa using ha
  | cons k ks ih =>
    intro acc a ha hp hg
    rw [List.foldl_cons, if_pos (hp k (List.mem_cons_self _ _))]
    rw [ih (acc.1 + 1, g acc.2 k) (a + t k)
      (by rw [ha]; exact hg k (List.mem_cons_self _ _) a)
      (fun j hj => hp j (List.mem_cons_of_mem _ hj))
      (fun j hj => hg j (List.mem_cons_of_mem _ hj))]
    rw [List.map_cons, List.sum_cons, add_assoc]

theorem foldl_sum_outer (p : Nat → Nat → Prop) [∀ a b, Decidable (p a b)]
    (g : Nat → Flt → Nat → Flt) (t : Nat → Nat → ℚ) (cols : Nat) :
    ∀ (l : List Nat) (acc : Nat × Flt) (a : ℚ), acc.2 = Flt.fin a →
      (∀ ky, ky ∈ l → ∀ kx, kx < cols → p ky kx) →
      (∀ ky, ky ∈ l → ∀ kx, kx < cols → ∀ b, g ky (Flt.fin b) kx = Flt.fin (b + t ky kx)) →
      (l.foldl (fun acc ky => (List.range cols).foldl
          (fun acc kx => if p ky kx then (acc.1 + 1, g ky acc.2 kx) else acc) acc) acc).2 =
        Flt.fin (a + (l.map (fun ky => ((List.range cols).map (t ky)).sum)).sum) := by
  intro l
  induction l with
  | nil => intro acc a ha _ _; simpa using ha
  | cons k ks ih =>
    intro acc a ha hp hg
    rw [List.foldl_cons]
    have hin := foldl_sum_inner (p k) (g k) (t k) (List.range cols) acc a ha
      (fun kx hkx => hp k (List.mem_cons_self _ _) kx (List.mem_range.1 hkx))
      (fun kx hkx b => hg k (List.mem_cons_self _ _) kx (List.mem_range.1 hkx) b)
    rw [ih _ _ hin (fun j hj => hp j (List.mem_cons_of_mem _ hj))
      (fun j hj => hg j (List.mem_cons_of_mem _ hj))]
    rw [List.map_cons, List.sum_cons, add_assoc]

theorem border_filter_kernel_fin (direction : Int) (type : BorderFilterType) (r c : Nat) :
    (border_filter_kernel direction type).data r c =
      Flt.fin ((border_filter_kernel direction type).data r c).toRat := by
  unfold border_filter_kernel
  split_ifs <;> rfl

/-- The nine entries of every kernel of `border_filter_kernel`, weighted by one constant,
sum to 0. -/
theorem border_filter_kernel_sum (direction : Int) (type : BorderFilterType) (c : ℚ) :
    ((List.range 3).map (fun ky => ((List.range 3).map (fun kx =>
      c * ((border_filter_kernel direction type).data ky kx).toRat)).sum)).sum = 0 := by
  have hr : List.range 3 = [0, 1, 2] := rfl
  rw [hr]
  unfold border_filter_kernel
  split_ifs <;> cases type <;>
    simp [Mat.t, border_filter_Gx, Flt.toRat] <;> ring

/-- On a constant image `filter2d` with a kernel of `border_filter_kernel` is 0 everywhere. -/
theorem filter2d_const_zero (src : Mat Nat) (c : Nat) (mask : Mat Nat) (direction : Int)
    (type : BorderFilterType)
    (hconst : ∀ y x, y < src.rows → x < src.cols → src.data y x = c) :
    ∃ dst, filter2d src (border_filter_kernel direction type) mask = some dst ∧
      dst.rows = src.rows ∧ dst.cols = src.cols ∧ ∀ y x, dst.data y x = 0 := by
  obtain ⟨r0, c0⟩ := border_filter_kernel_size direction type
  unfold filter2d
  rw [if_neg (by simp [Mat.empty, r0, c0]), if_neg (by simp [r0, c0])]
  refine ⟨_, rfl, rfl, rfl, ?_⟩
  intro y x
  simp only []
  by_cases hloop : (border_filter_kernel direction type).cols / 2 ≤ y ∧
      y + (border_filter_kernel direction type).cols / 2 < src.rows ∧
      (border_filter_kernel direction type).rows / 2 ≤ x ∧
      x + (border_filter_kernel direction type).rows / 2 < src.cols
  · rw [if_pos hloop]
    by_cases hcount : (filter2d_accumulate src (border_filter_kernel direction type) mask
        y x).1 = (border_filter_kernel direction type).cols *
          (border_filter_kernel direction type).rows
    · rw [if_pos hcount]
      have hvalid := (filter2d_count_iff src _ mask y x).1 hcount
      have hinside := filter2d_loop_inside src (border_filter_kernel direction type) y x
        (by rw [r0, c0]) hloop
      have hacc := foldl_sum_outer
        (fun ky kx => mask.get
          ((y : Int) - (((border_filter_kernel direction type).rows / 2 : Nat) : Int) +
            (ky : Int))
          ((x : Int) - (((border_filter_kernel direction type).cols / 2 : Nat) : Int) +
            (kx : Int)) ≠ 0)
        (fun ky s kx => s + Flt.ofNat (src.get
          ((y : Int) - (((border_filter_kernel direction type).rows / 2 : Nat) : Int) +
            (ky : Int))
          ((x : Int) - (((border_filter_kernel direction type).cols / 2 : Nat) : Int) +
            (kx : Int))) * (border_filter_kernel direction type).data ky kx)
        (fun ky kx => (c : ℚ) * ((border_filter_kernel direction type).data ky kx).toRat)
        (border_filter_kernel direction type).cols
        (List.range (border_filter_kernel direction type).rows) (0, Flt.fin 0) 0 rfl
        (fun ky hky kx hkx => hvalid ky kx (List.mem_range.1 hky) hkx)
        (by
          intro ky hky kx hkx b
          obtain ⟨h1, h2, h3, h4⟩ := hinside ky kx (List.mem_range.1 hky) hkx
          have hsrc : src.get
              ((y : Int) - (((border_filter_kernel direction type).rows / 2 : Nat) : Int) +
                (ky : Int))
              ((x : Int) - (((border_filter_kernel direction type).cols / 2 : Nat) : Int) +
                (kx : Int)) = c := by
            unfold Mat.get
            exact hconst _ _ (by omega) (by omega)
          simp only [hsrc]
          rw [border_filter_kernel_fin direction type ky kx]
          unfold Flt.ofNat
          rw [Flt.mul_fin, Flt.add_fin]
          rfl)
      have hacc2 : (filter2d_accumulate src (border_filter_kernel direction type) mask
          y x).2 = Flt.fin 0 := by
        refine Eq.trans hacc ?_
        rw [r0, c0]
        have hs := border_filter_kernel_sum direction type (c : ℚ)
        simp only [] at hs ⊢
        rw [hs]
        norm_num
      rw [hacc2]
      exact saturate_cast_uchar_zero
    · rw [if_neg hcount]
  · rw [if_neg hloop]

/-! ## Lemmas on the row gain of `insonification_correction` -/

theorem foldl_max_ge :
    ∀ (l : List Flt) (b : ℚ), (∀ v, v ∈ l → ∃ q, v = Flt.fin q) →
      ∃ r, l.foldl (fun largest e => if Flt.lt largest e then e else largest) (Flt.fin b) =
          Flt.fin r ∧ b ≤ r ∧ ∀ v, v ∈ l → ∀ q, v = Flt.fin q → q ≤ r := by
  intro l
  induction l with
  | nil => intro b _; exact ⟨b, rfl, le_refl b, fun v hv => by simp at hv⟩
  | cons c cs ih =>
    intro b hfin
    obtain ⟨qc, hqc⟩ := hfin c (List.mem_cons_self _ _)
    rw [List.foldl_cons, hqc]
    by_cases hlt : b < qc
    · have h1 : Flt.lt (Flt.fin b) (Flt.fin qc) = true := by simp [Flt.lt, hlt]
      rw [if_pos h1]
      obtain ⟨r, hr, hbr, hall⟩ := ih qc (fun v hv => hfin v (List.mem_cons_of_mem _ hv))
      refine ⟨r, hr, le_trans (le_of_lt hlt) hbr, ?_⟩
      intro v hv q hq
      rcases List.mem_cons.1 hv with h | h
      · rw [h] at hq
        rw [← Flt.fin.inj hq]
        exact hbr
      · exact hall v h q hq
    · have h1 : ¬ Flt.lt (Flt.fin b) (Flt.fin qc) = true := by simp [Flt.lt, hlt]
      rw [if_neg h1]
      obtain ⟨r, hr, hbr, hall⟩ := ih b (fun v hv => hfin v (List.mem_cons_of_mem _ hv))
      refine ⟨r, hr, hbr, ?_⟩
      intro v hv q hq
      rcases List.mem_cons.1 hv with h | h
      · rw [h] at hq
        rw [← Flt.fin.inj hq]
        exact le_trans (not_lt.1 hlt) hbr
      · exact hall v h q hq

/-- `std::max_element` of a vector of finite values is not below any of its elements. -/
theorem max_element_ge (l : List Flt) (m : Flt) (hfin : ∀ v, v ∈ l → ∃ q, v = Flt.fin q)
    (hm : max_element l = some m) : ∀ v, v ∈ l → Flt.le v m = true := by
  cases l with
  | nil => simp [max_element] at hm
  | cons a as =>
    obtain ⟨qa, hqa⟩ := hfin a (List.mem_cons_self _ _)
    simp only [max_element, Option.some.injEq] at hm
    rw [hqa] at hm
    obtain ⟨r, hr, hbr, hall⟩ := foldl_max_ge as qa
      (fun v hv => hfin v (List.mem_cons_of_mem _ hv))
    rw [hr] at hm
    subst hm
    intro v hv
    obtain ⟨q, hq⟩ := hfin v hv
    rw [hq]
    have hle : q ≤ r := by
      rcases List.mem_cons.1 hv with h | h
      · rw [h, hqa] at hq
        rw [← Flt.fin.inj hq]
        exact hbr
      · exact hall v h q hq
    simp [Flt.le, hle]

/-! ## Lemmas on the block loops of `saliency_mapping` -/

/-- With a stride of at least 1 and `limit - i` iterations allowed, the loop ends: it
visits `ceil((limit - i) / step)` values, all below `limit`. -/
theorem stride_loop_spec (limit step : Nat) (hstep : 1 ≤ step) :
    ∀ (fuel i : Nat), limit - i ≤ fuel →
      ∃ l, stride_loop limit step fuel i = some l ∧
        l.length = (if limit ≤ i then 0 else (limit - i - 1) / step + 1) ∧
        ∀ v, v ∈ l → v < limit := by
  intro fuel
  induction fuel with
  | zero =>
    intro i hfuel
    have hle : limit ≤ i := by omega
    refine ⟨[], ?_, ?_, fun v hv => by simp at hv⟩
    · unfold stride_loop
      rw [if_neg (by omega)]
    · rw [if_pos hle]; rfl
  | succ k ih =>
    intro i hfuel
    by_cases hlt : i < limit
    · obtain ⟨l, hl, hlen, hmem⟩ := ih (i + step) (by omega)
      refine ⟨i :: l, ?_, ?_, ?_⟩
      · unfold stride_loop
        rw [if_pos hlt, hl]
        rfl
      · have hni : ¬ limit ≤ i := by omega
        rw [List.length_cons, if_neg hni]
        by_cases hle : limit ≤ i + step
        · rw [if_pos hle] at hlen
          have hsmall : limit - i - 1 < step := by omega
          rw [hlen, Nat.div_eq_of_lt hsmall]
        · rw [if_neg hle] at hlen
          have h1 : limit - i - 1 = (limit - (i + step) - 1) + step := by omega
          have hpos : 0 < step := by omega
          rw [hlen, h1, Nat.add_div_right _ hpos]
      · intro v hv
        rcases List.mem_cons.1 hv with h | h
        · rw [h]; exact hlt
        · exact hmem v h
    · refine ⟨[], ?_, ?_, fun v hv => by simp at hv⟩
      · unfold stride_loop
        rw [if_neg hlt]
      · rw [if_pos (by omega)]; rfl

/-- The loop from 0 visits at most `limit / step + 1` values, and at most `limit / step`
values when the stride divides the limit. -/
theorem stride_loop_count (limit step : Nat) (hstep : 1 ≤ step) :
    ∃ l, stride_loop limit step limit 0 = some l ∧ l.length ≤ limit / step + 1 ∧
      (step ∣ limit → l.length ≤ limit / step) := by
  obtain ⟨l, hl, hlen, _⟩ := stride_loop_spec limit step hstep limit 0 (by omega)
  refine ⟨l, hl, ?_, ?_⟩
  · by_cases h0 : limit ≤ 0
    · rw [hlen, if_pos h0]
      exact Nat.zero_le _
    · rw [hlen, if_neg h0]
      have h1 : (limit - 0 - 1) / step ≤ limit / step :=
        Nat.div_le_div_right (by omega)
      exact Nat.succ_le_succ h1
  · intro hdvd
    by_cases h0 : limit ≤ 0
    · rw [hlen, if_pos h0]
      exact Nat.zero_le _
    · rw [hlen, if_neg h0]
      have hlt : (limit - 0 - 1) / step < limit / step := by
        apply Nat.div_lt_of_lt_mul
        rw [Nat.mul_div_cancel' hdvd]
        omega
      exact hlt

theorem saliency_mapping_inner_idx (integral : Mat Flt) (bw bh i : Nat) :
    ∀ (cols_j : List Nat) (st : BlockState),
      (cols_j.foldl (fun st j => saliency_mapping_store integral bw bh st i j) st).idx =
        st.idx + cols_j.length := by
  intro cols_j
  induction cols_j with
  | nil => intro st; rfl
  | cons j js ih =>
    intro st
    rw [List.foldl_cons, ih, List.length_cons]
    show st.idx + 1 + js.length = st.idx + (js.length + 1)
    omega

/-- The final `idx` is the number of block rows visited times the number of block columns
visited. -/
theorem saliency_mapping_fold_idx (integral : Mat Flt) (bw bh : Nat) (cols_j : List Nat) :
    ∀ (rows_i : List Nat) (st : BlockState),
      (rows_i.foldl (fun st i => cols_j.foldl
        (fun st j => saliency_mapping_store integral bw bh st i j) st) st).idx =
        st.idx + rows_i.length * cols_j.length := by
  intro rows_i
  induction rows_i with
  | nil => intro st; simp
  | cons i is ih =>
    intro st
    rw [List.foldl_cons, ih, saliency_mapping_inner_idx, List.length_cons, Nat.add_mul,
      Nat.one_mul]
    omega

/-- The block loops of `saliency_mapping` end, never store past `total_blocks`, and store
fewer than `total_blocks` entries when a stride divides its loop limit. -/
theorem saliency_mapping_blocks_idx (src : Mat Flt) (block_count : Nat)
    (hh : 1 ≤ saliency_mapping_block_height src block_count / 2)
    (hw : 1 ≤ saliency_mapping_block_width src block_count / 2) :
    ∃ st, saliency_mapping_blocks src block_count = some st ∧
      st.idx ≤ saliency_mapping_total_blocks src block_count ∧
      ((saliency_mapping_block_height src block_count / 2 ∣
            src.rows - saliency_mapping_block_height src block_count ∨
          saliency_mapping_block_width src block_count / 2 ∣
            src.cols - saliency_mapping_block_width src block_count) →
        st.idx < saliency_mapping_total_blocks src block_count) := by
  have hbc : ¬ block_count = 0 := by
    intro h0
    rw [h0] at hh
    simp [saliency_mapping_block_height] at hh
  obtain ⟨is, his, hislen, hisdvd⟩ := stride_loop_count
    (src.rows - saliency_mapping_block_height src block_count)
    (saliency_mapping_block_height src block_count / 2) hh
  obtain ⟨js, hjs, hjslen, hjsdvd⟩ := stride_loop_count
    (src.cols - saliency_mapping_block_width src block_count)
    (saliency_mapping_block_width src block_count / 2) hw
  unfold saliency_mapping_blocks
  rw [if_neg hbc, if_neg (by omega), his, hjs]
  refine ⟨_, rfl, ?_, ?_⟩
  · rw [saliency_mapping_fold_idx]
    unfold saliency_mapping_total_blocks saliency_mapping_number_of_rows
      saliency_mapping_number_of_cols
    rw [Nat.zero_add]
    exact Nat.mul_le_mul hislen hjslen
  · intro hdvd
    rw [saliency_mapping_fold_idx]
    unfold saliency_mapping_total_blocks saliency_mapping_number_of_rows
      saliency_mapping_number_of_cols
    rw [Nat.zero_add]
    rcases hdvd with h | h
    · have h1 := Nat.mul_le_mul (hisdvd h) hjslen
      have h2 : ((src.rows - saliency_mapping_block_height src block_count) /
          (saliency_mapping_block_height src block_count / 2) + 1) *
          ((src.cols - saliency_mapping_block_width src block_count) /
          (saliency_mapping_block_width src block_count / 2) + 1) =
          (src.rows - saliency_mapping_block_height src block_count) /
          (saliency_mapping_block_height src block_count / 2) *
          ((src.cols - saliency_mapping_block_width src block_count) /
          (saliency_mapping_block_width src block_count / 2) + 1) +
          ((src.cols - saliency_mapping_block_width src block_count) /
          (saliency_mapping_block_width src block_count / 2) + 1) := by
        rw [Nat.add_mul, Nat.one_mul]
      rw [h2]
      exact Nat.lt_of_le_of_lt h1 (Nat.lt_add_of_pos_right (Nat.succ_pos _))
    · have h1 := Nat.mul_le_mul hislen (hjsdvd h)
      have h2 : ((src.rows - saliency_mapping_block_height src block_count) /
          (saliency_mapping_block_height src block_count / 2) + 1) *
          ((src.cols - saliency_mapping_block_width src block_count) /
          (saliency_mapping_block_width src block_count / 2) + 1) =
          ((src.rows - saliency_mapping_block_height src block_count) /
          (saliency_mapping_block_height src block_count / 2) + 1) *
          ((src.cols - saliency_mapping_block_width src block_count) /
          (saliency_mapping_block_width src block_count / 2)) +
          ((src.rows - saliency_mapping_block_height src block_count) /
          (saliency_mapping_block_height src block_count / 2) + 1) := by
        rw [Nat.mul_add, Nat.mul_one]
      rw [h2]
      exact Nat.lt_of_le_of_lt h1 (Nat.lt_add_of_pos_right (Nat.succ_pos _))

/-! ## The window filters where no window is empty -/

/-- Where every window holds a pixel: for every pair of equally sized rasters with finite
pixels, at least two rows and two columns, every kernel radius `ksize >= 1` and every (possibly empty) mask,
`mean_difference_filter` returns a raster of the size of the inputs whose every pixel lies
in the closed interval `[0,1]`. -/
theorem mean_difference_filter_unit (src0 src1 : Mat Flt) (ksize : Int) (mask : Mat Nat)
    (hsize : src0.rows = src1.rows ∧ src0.cols = src1.cols) (hk : 1 ≤ ksize)
    (hrows : 2 ≤ src0.rows) (hcols : 2 ≤ src0.cols)
    (hfin0 : ∀ y x, y < src0.rows → x < src0.cols → (src0.data y x).isFinite = true)
    (hfin1 : ∀ y x, y < src1.rows → x < src1.cols → (src1.data y x).isFinite = true) :
    ∃ dst, mean_difference_filter src0 src1 ksize mask = some dst ∧
      dst.rows = src0.rows ∧ dst.cols = src0.cols ∧
      ∀ y x, y < src0.rows → x < src0.cols → Flt.inUnit (dst.data y x) = true := by
  unfold mean_difference_filter
  rw [if_pos hsize]
  refine ⟨_, rfl, rfl, rfl, ?_⟩
  intro y x hy hx
  simp only [hy, hx, and_self, if_true]
  by_cases hm : (!mask.empty && mask.data y x == 0) = true
  · rw [if_pos hm]; decide
  · rw [if_neg hm]
    obtain ⟨b1, b2, b3, b4, b5, b6⟩ := neighborhood_rect_bounds x y ksize src0.cols src0.rows
      (by omega) (by omega) (by omega) (by omega) (by omega)
    obtain ⟨p1, p2⟩ := neighborhood_rect_pos x y ksize src0.cols src0.rows hk
      (by omega) (by omega) (by omega) (by omega) (by omega) (by omega)
    obtain ⟨sum, hsum⟩ := integral_image_sum_finite src0 hfin0
      (neighborhood_rect x y ksize src0.cols src0.rows).x
      (neighborhood_rect x y ksize src0.cols src0.rows).y
      ((neighborhood_rect x y ksize src0.cols src0.rows).x +
        (neighborhood_rect x y ksize src0.cols src0.rows).width)
      ((neighborhood_rect x y ksize src0.cols src0.rows).y +
        (neighborhood_rect x y ksize src0.cols src0.rows).height)
      b1 (by omega) (by omega) b2 (by omega) (by omega)
    obtain ⟨p, hp⟩ := (Flt.isFinite_iff _).1 (hfin1 y x (by omega) (by omega))
    have hpos : (0 : Int) < (neighborhood_rect x y ksize src0.cols src0.rows).area :=
      Int.mul_pos (by omega) (by omega)
    have hne : (((neighborhood_rect x y ksize src0.cols src0.rows).area : Int) : ℚ) ≠ 0 := by
      exact_mod_cast (ne_of_gt hpos)
    unfold integral_image_sum_rect Flt.ofInt
    rw [hsum, hp, Flt.div_fin _ _ hne, Flt.sub_fin]
    exact Flt.inUnit_clamp _

/-- An instance of the range of `mean_difference_filter`: the `2 x 2` raster of `1/2`,
radius 1. -/
theorem mean_difference_filter_unit_witness :
    (((constMat 2 2 (Flt.fin (1 / 2))).rows = (constMat 2 2 (Flt.fin (1 / 2))).rows ∧
        (constMat 2 2 (Flt.fin (1 / 2))).cols = (constMat 2 2 (Flt.fin (1 / 2))).cols) ∧
      (1 : Int) ≤ 1 ∧ 2 ≤ (constMat 2 2 (Flt.fin (1 / 2))).rows ∧
      2 ≤ (constMat 2 2 (Flt.fin (1 / 2))).cols ∧
      (∀ y x, y < (constMat 2 2 (Flt.fin (1 / 2))).rows →
        x < (constMat 2 2 (Flt.fin (1 / 2))).cols →
        ((constMat 2 2 (Flt.fin (1 / 2))).data y x).isFinite = true)) ∧
    ∃ dst, mean_difference_filter (constMat 2 2 (Flt.fin (1 / 2)))
        (constMat 2 2 (Flt.fin (1 / 2))) 1 noArray = some dst ∧
      dst.rows = (constMat 2 2 (Flt.fin (1 / 2))).rows ∧
      dst.cols = (constMat 2 2 (Flt.fin (1 / 2))).cols ∧
      ∀ y x, y < (constMat 2 2 (Flt.fin (1 / 2))).rows →
        x < (constMat 2 2 (Flt.fin (1 / 2))).cols → Flt.inUnit (dst.data y x) = true :=
  ⟨⟨⟨rfl, rfl⟩, by decide, by decide, by decide, fun _ _ _ _ => rfl⟩,
    mean_difference_filter_unit (constMat 2 2 (Flt.fin (1 / 2)))
      (constMat 2 2 (Flt.fin (1 / 2))) 1 noArray ⟨rfl, rfl⟩ (by decide) (by decide)
      (by decide) (fun _ _ _ _ => rfl) (fun _ _ _ _ => rfl)⟩

/-- Where every window holds a pixel: for every raster with at least two rows and two
columns whose pixels all equal one finite constant `c`, every kernel radius `ksize >= 1`, and a full mask or no mask,
`mean_filter` returns a raster of the same size whose every pixel equals `c`, the pixels on
the image border included (in exact arithmetic). -/
theorem mean_filter_const (src : Mat Flt) (c : ℚ) (ksize : Int) (mask : Mat Nat)
    (hconst : ∀ y x, y < src.rows → x < src.cols → src.data y x = Flt.fin c)
    (hk : 1 ≤ ksize) (hrows : 2 ≤ src.rows) (hcols : 2 ≤ src.cols)
    (hmask : mask.empty = true ∨ ∀ y x, y < src.rows → x < src.cols → mask.data y x ≠ 0) :
    (mean_filter src ksize mask).rows = src.rows ∧
    (mean_filter src ksize mask).cols = src.cols ∧
    ∀ y x, y < src.rows → x < src.cols → (mean_filter src ksize mask).data y x = Flt.fin c := by
  have hw : (((cv_integral src).cols : Int) - 1) = (src.cols : Int) := by
    simp [cv_integral]
  have hh : (((cv_integral src).rows : Int) - 1) = (src.rows : Int) := by
    simp [cv_integral]
  unfold mean_filter integral_mean_filter
  simp only [hw, hh, Int.toNat_ofNat]
  refine ⟨trivial, trivial, ?_⟩
  intro y x hy hx
  have hm : (!mask.empty && mask.data y x == 0) = false := by
    apply mask_test_false
    rcases hmask with h | h
    · exact Or.inl h
    · exact Or.inr (h y x hy hx)
  simp only [hy, hx, and_self, if_true, hm, Bool.false_eq_true, if_false]
  obtain ⟨b1, b2, b3, b4, b5, b6⟩ := neighborhood_rect_bounds x y ksize src.cols src.rows
    (by omega) (by omega) (by omega) (by omega) (by omega)
  obtain ⟨p1, p2⟩ := neighborhood_rect_pos x y ksize src.cols src.rows hk
    (by omega) (by omega) (by omega) (by omega) (by omega) (by omega)
  have harea : (neighborhood_rect x y ksize src.cols src.rows).area =
      ((neighborhood_rect x y ksize src.cols src.rows).x +
          (neighborhood_rect x y ksize src.cols src.rows).width -
        (neighborhood_rect x y ksize src.cols src.rows).x) *
      ((neighborhood_rect x y ksize src.cols src.rows).y +
          (neighborhood_rect x y ksize src.cols src.rows).height -
        (neighborhood_rect x y ksize src.cols src.rows).y) := by
    unfold Rect.area
    ring
  unfold integral_image_sum_rect
  rw [harea]
  exact region_mean_const src c hconst _ _ _ _ b1 (by omega) (by omega) b2 (by omega)
    (by omega)

/-- An instance of `mean_filter` on a constant raster: the `8 x 8` raster of `1/2`,
radius 7, no mask. -/
theorem mean_filter_const_witness :
    ((∀ y x, y < eightImage.rows → x < eightImage.cols →
        eightImage.data y x = Flt.fin (1 / 2)) ∧
      (1 : Int) ≤ 7 ∧ 2 ≤ eightImage.rows ∧ 2 ≤ eightImage.cols ∧
      (noArray.empty = true ∨
        ∀ y x, y < eightImage.rows → x < eightImage.cols → noArray.data y x ≠ 0)) ∧
    ((mean_filter eightImage 7 noArray).rows = eightImage.rows ∧
      (mean_filter eightImage 7 noArray).cols = eightImage.cols ∧
      ∀ y x, y < eightImage.rows → x < eightImage.cols →
        (mean_filter eightImage 7 noArray).data y x = Flt.fin (1 / 2)) :=
  ⟨⟨fun _ _ _ _ => rfl, by decide, by decide, by decide, Or.inl rfl⟩,
    mean_filter_const eightImage (1 / 2) 7 noArray (fun _ _ _ _ => rfl) (by decide)
      (by decide) (by decide) (Or.inl rfl)⟩

/-- Where every scale is at least 1: for every raster with at least eight rows and eight
columns whose pixels all equal one finite constant `c`, and no mask, `saliency_gray` returns a raster of the same
size that is 0 at every pixel (in exact arithmetic). -/
theorem saliency_gray_const (src : Mat Flt) (c : ℚ) (mask : Mat Nat)
    (hconst : ∀ y x, y < src.rows → x < src.cols → src.data y x = Flt.fin c)
    (hrows : 8 ≤ src.rows) (hcols : 8 ≤ src.cols) (hmask : mask.empty = true) :
    (saliency_gray src mask).rows = src.rows ∧
    (saliency_gray src mask).cols = src.cols ∧
    ∀ y x, y < src.rows → x < src.cols → (saliency_gray src mask).data y x = Flt.fin 0 := by
  unfold saliency_gray
  refine ⟨rfl, rfl, ?_⟩
  intro y x hy hx
  have hm : (!mask.empty && mask.data y x == 0) = false :=
    mask_test_false mask y x (Or.inl hmask)
  simp only [hy, hx, and_self, if_true, hm, Bool.false_eq_true, if_false]
  rw [saliency_scales_eq, hconst y x hy hx]
  simp only [List.foldl_cons, List.foldl_nil]
  have h8 : 8 ≤ min src.cols src.rows := le_min hcols hrows
  rw [saliency_gray_step_const src c 0 hconst x y hx hy (by omega) (by omega) _ (by omega),
    saliency_gray_step_const src c 0 hconst x y hx hy (by omega) (by omega) _ (by omega),
    saliency_gray_step_const src c 0 hconst x y hx hy (by omega) (by omega) _ (by omega)]

/-- An instance of `saliency_gray` on a constant raster: the `8 x 8` raster of `1/2`, no mask. -/
theorem saliency_gray_const_witness :
    ((∀ y x, y < eightImage.rows → x < eightImage.cols →
        eightImage.data y x = Flt.fin (1 / 2)) ∧
      8 ≤ eightImage.rows ∧ 8 ≤ eightImage.cols ∧ noArray.empty = true) ∧
    ((saliency_gray eightImage noArray).rows = eightImage.rows ∧
      (saliency_gray eightImage noArray).cols = eightImage.cols ∧
      ∀ y x, y < eightImage.rows → x < eightImage.cols →
        (saliency_gray eightImage noArray).data y x = Flt.fin 0) :=
  ⟨⟨fun _ _ _ _ => rfl, by decide, by decide, rfl⟩,
    saliency_gray_const eightImage (1 / 2) noArray (fun _ _ _ _ => rfl) (by decide)
      (by decide) rfl⟩

/-! # The claims -/

/-! ## C1: flat index round trip -/

/-- C1: for a holder with `0 < bin_count_` (a `uint32_t`), every `beam >= 0` and
`0 <= bin < bin_count_` whose flat index fits an `int` satisfy
`index_to_beam (index_at beam bin) = beam` and `index_to_bin (index_at beam bin) = bin`;
and every `int` index `i >= 0` satisfies
`index_at (index_to_beam i) (index_to_bin i) = i` with `0 <= index_to_bin i < bin_count_`. -/
theorem index_round_trip (h : SonarHolder) (beam bin i : Int)
    (hpos : 0 < h.bin_count_) (hu32 : h.bin_count_ < 4294967296)
    (hbeam : 0 ≤ beam) (hbin0 : 0 ≤ bin) (hbin : bin < h.bin_count_)
    (hfit : beam * h.bin_count_ + bin < 2147483648)
    (hi0 : 0 ≤ i) (hi : i < 2147483648) :
    (h.index_to_beam (h.index_at beam bin) = beam ∧
      h.index_to_bin (h.index_at beam bin) = bin) ∧
    (h.index_at (h.index_to_beam i) (h.index_to_bin i) = i ∧
      0 ≤ h.index_to_bin i ∧ h.index_to_bin i < h.bin_count_) := by
  obtain ⟨bc, bm⟩ := h
  simp only at hpos hu32 hbin hfit ⊢
  obtain ⟨b, rfl⟩ := Int.eq_ofNat_of_zero_le hbeam
  obtain ⟨c, rfl⟩ := Int.eq_ofNat_of_zero_le hbin0
  obtain ⟨j, rfl⟩ := Int.eq_ofNat_of_zero_le hi0
  have hc : c < bc := by exact_mod_cast hbin
  have hfitN : b * bc + c < 2147483648 := by exact_mod_cast hfit
  have hj : j < 2147483648 := by exact_mod_cast hi
  have hb : b ≤ b * bc := Nat.le_mul_of_pos_right b hpos
  have hdiv : (b * bc + c) / bc = b := by
    rw [Nat.add_comm, Nat.add_mul_div_right c b hpos, Nat.div_eq_of_lt hc, Nat.zero_add]
  have hmod : (b * bc + c) % bc = c := by
    rw [Nat.add_comm, Nat.add_mul_mod_self_right, Nat.mod_eq_of_lt hc]
  have hjd : j / bc ≤ j := Nat.div_le_self j bc
  have hjm : j % bc ≤ j := Nat.mod_le j bc
  have hjm2 : j % bc < bc := Nat.mod_lt j hpos
  have hrec : j / bc * bc + j % bc = j := by
    rw [Nat.mul_comm]; exact Nat.div_add_mod j bc
  have hbN : b < 4294967296 := by omega
  have hcN : c < 4294967296 := by omega
  have hjN : j < 4294967296 := by omega
  have hjdN : j / bc < 4294967296 := by omega
  have hjmN : j % bc < 4294967296 := by omega
  have hjdS : j / bc < 2147483648 := by omega
  have hjmS : j % bc < 2147483648 := by omega
  have hbcN : b * bc + c < 4294967296 := by omega
  have e1 : SonarHolder.index_at ⟨bc, bm⟩ (b : Int) (c : Int) = ((b * bc + c : Nat) : Int) := by
    unfold SonarHolder.index_at
    rw [toU32_natCast _ hbN, toU32_natCast _ hcN, Nat.mod_eq_of_lt hbcN,
      toI32_of_small _ hfitN]
  have e2 : SonarHolder.index_to_beam ⟨bc, bm⟩ (j : Int) = ((j / bc : Nat) : Int) := by
    unfold SonarHolder.index_to_beam
    rw [toU32_natCast _ hjN, toI32_of_small _ hjdS]
  have e3 : SonarHolder.index_to_bin ⟨bc, bm⟩ (j : Int) = ((j % bc : Nat) : Int) := by
    unfold SonarHolder.index_to_bin
    rw [toU32_natCast _ hjN, toI32_of_small _ hjmS]
  refine ⟨⟨?_, ?_⟩, ?_, ?_, ?_⟩
  · rw [e1]
    unfold SonarHolder.index_to_beam
    rw [toU32_natCast _ hbcN, hdiv, toI32_of_small _ (by omega)]
  · rw [e1]
    unfold SonarHolder.index_to_bin
    rw [toU32_natCast _ hbcN, hmod, toI32_of_small _ (by omega)]
  · rw [e2, e3]
    unfold SonarHolder.index_at
    rw [toU32_natCast _ hjdN, toU32_natCast _ hjmN, hrec, Nat.mod_eq_of_lt hjN,
      toI32_of_small _ hj]
  · rw [e3]; exact Int.ofNat_nonneg _
  · rw [e3]; exact_mod_cast hjm2

/-- Witness for C1: `bin_count_ = 4`, `(beam, bin) = (3, 2)`, index `14`. -/
theorem index_round_trip_witness :
    ((0 : Nat) < 4 ∧ (4 : Nat) < 4294967296 ∧ (0 : Int) ≤ 3 ∧ (0 : Int) ≤ 2 ∧
      (2 : Int) < ((4 : Nat) : Int) ∧ (3 : Int) * ((4 : Nat) : Int) + 2 < 2147483648 ∧
      (0 : Int) ≤ 14 ∧ (14 : Int) < 2147483648) ∧
    ((SonarHolder.index_to_beam ⟨4, 2⟩ (SonarHolder.index_at ⟨4, 2⟩ 3 2) = 3 ∧
      SonarHolder.index_to_bin ⟨4, 2⟩ (SonarHolder.index_at ⟨4, 2⟩ 3 2) = 2) ∧
    (SonarHolder.index_at ⟨4, 2⟩ (SonarHolder.index_to_beam ⟨4, 2⟩ 14)
        (SonarHolder.index_to_bin ⟨4, 2⟩ 14) = 14 ∧
      0 ≤ SonarHolder.index_to_bin ⟨4, 2⟩ 14 ∧
      SonarHolder.index_to_bin ⟨4, 2⟩ 14 < ((4 : Nat) : Int))) :=
  ⟨by decide, index_round_trip ⟨4, 2⟩ 3 2 14 (by decide) (by decide) (by decide) (by decide)
    (by decide) (by decide) (by decide) (by decide)⟩

/-! ## C2: the range of the mean-difference filter -/

/-- C2: the output of `mean_difference_filter` does not always lie in `[0,1]`.
`neighborhood_rect` clamps the bottom-right corner of the window to the last pixel
`(w-1, h-1)` and passes it to `cv::Rect(tl, br)` as the exclusive corner, so for the radius 0
in the `2 x 2` raster of `1/2` the window of pixel `(0,0)` is the empty rectangle
`(0, 0, 0, 0)`: the mean is `0/0`, the comparisons `d < 0` and `d > 1` of the clamp are both
false for NaN, and the output pixel `(0,0)` is NaN, which is not in `[0,1]`.  The same happens
in a `1 x 1` raster for the radius 25.  Where no window is empty (finite pixels, at least two
rows and two columns, `ksize >= 1`) every output pixel lies in `[0,1]`. -/
theorem mean_difference_filter_nan :
    (neighborhood_rect 0 0 0 2 2).width = 0 ∧ (neighborhood_rect 0 0 0 2 2).height = 0 ∧
    (neighborhood_rect 0 0 0 2 2).area = 0 ∧
    (mean_difference_filter (constMat 2 2 (Flt.fin (1 / 2))) (constMat 2 2 (Flt.fin (1 / 2)))
      0 noArray).map (fun dst => dst.data 0 0) = some Flt.nan ∧
    (neighborhood_rect 0 0 25 1 1).area = 0 ∧
    (mean_difference_filter (constMat 1 1 (Flt.fin (1 / 2))) (constMat 1 1 (Flt.fin (1 / 2)))
      25 noArray).map (fun dst => dst.data 0 0) = some Flt.nan ∧
    Flt.inUnit Flt.nan = false ∧
    (∀ (src0 src1 : Mat Flt) (ksize : Int) (mask : Mat Nat),
      (src0.rows = src1.rows ∧ src0.cols = src1.cols) → 1 ≤ ksize →
      2 ≤ src0.rows → 2 ≤ src0.cols →
      (∀ y x, y < src0.rows → x < src0.cols → (src0.data y x).isFinite = true) →
      (∀ y x, y < src1.rows → x < src1.cols → (src1.data y x).isFinite = true) →
      ∃ dst, mean_difference_filter src0 src1 ksize mask = some dst ∧
        dst.rows = src0.rows ∧ dst.cols = src0.cols ∧
        ∀ y x, y < src0.rows → x < src0.cols → Flt.inUnit (dst.data y x) = true) :=
  ⟨by decide, by decide, by decide, by decide!, by decide, by decide!, by decide,
    mean_difference_filter_unit⟩

/-! ## C3: the mean filter on a constant raster -/

/-- C3: `mean_filter` does not return the constant on every constant raster.  The window of
`neighborhood_rect` has its bottom-right corner clamped to the last pixel `(w-1, h-1)` and
used as the exclusive corner of `cv::Rect(tl, br)`, so in the `2 x 2` raster of `1/2` the
window of pixel `(0,0)` for the radius 0 is empty, and so is the window of the only pixel of
the `1 x 1` raster of `1/2` for the radius 7: the window sum 0 is divided by the area 0 and
the output pixel is NaN, not `1/2`.  Where no window is empty (at least two rows and two
columns, `ksize >= 1`, a full mask or none) every output pixel equals the constant. -/
theorem mean_filter_const_nan :
    (neighborhood_rect 0 0 0 2 2).area = 0 ∧
    (mean_filter (constMat 2 2 (Flt.fin (1 / 2))) 0 noArray).data 0 0 = Flt.nan ∧
    (neighborhood_rect 0 0 7 1 1).area = 0 ∧
    (mean_filter (constMat 1 1 (Flt.fin (1 / 2))) 7 noArray).data 0 0 = Flt.nan ∧
    (constMat 2 2 (Flt.fin (1 / 2))).data 0 0 = Flt.fin (1 / 2) ∧
    Flt.nan ≠ Flt.fin (1 / 2) ∧
    (∀ (src : Mat Flt) (c : ℚ) (ksize : Int) (mask : Mat Nat),
      (∀ y x, y < src.rows → x < src.cols → src.data y x = Flt.fin c) →
      1 ≤ ksize → 2 ≤ src.rows → 2 ≤ src.cols →
      (mask.empty = true ∨ ∀ y x, y < src.rows → x < src.cols → mask.data y x ≠ 0) →
      (mean_filter src ksize mask).rows = src.rows ∧
      (mean_filter src ksize mask).cols = src.cols ∧
      ∀ y x, y < src.rows → x < src.cols →
        (mean_filter src ksize mask).data y x = Flt.fin c) :=
  ⟨by decide, by decide!, by decide, by decide!, by decide!, by decide, mean_filter_const⟩

/-! ## C4: gray saliency of a constant raster -/

/-- C4: `saliency_gray` is not 0 on every constant raster.  The window of a scale has its
last column and row clamped as `x2 = min(x+N, width-1)`, `y2 = min(y+N, height-1)`, but its
pixel count is taken as `NN = (x2-x1)*(y2-y1)`, which is 0 for the scale `N = 0`.  On the
`7 x 7` raster of `1/2` the scales are `3, 1, 0`; at the third one the mean is `0/0`, and the
output is NaN at the centre pixel `(3,3)`, not 0; the same happens at pixel `(0,0)` of the
`2 x 2` raster of `1/2`, whose scales are `1, 0, 0`.  Where every scale is at least 1 (at
least eight rows and eight columns) the output is 0 at every pixel. -/
theorem saliency_gray_const_nan :
    saliency_scales 7 7 = [3, 1, 0] ∧
    (saliency_gray sevenImage noArray).data 3 3 = Flt.nan ∧
    saliency_scales 2 2 = [1, 0, 0] ∧
    (saliency_gray (constMat 2 2 (Flt.fin (1 / 2))) noArray).data 0 0 = Flt.nan ∧
    Flt.nan ≠ Flt.fin 0 ∧
    (∀ (src : Mat Flt) (c : ℚ) (mask : Mat Nat),
      (∀ y x, y < src.rows → x < src.cols → src.data y x = Flt.fin c) →
      8 ≤ src.rows → 8 ≤ src.cols → mask.empty = true →
      (saliency_gray src mask).rows = src.rows ∧
      (saliency_gray src mask).cols = src.cols ∧
      ∀ y x, y < src.rows → x < src.cols →
        (saliency_gray src mask).data y x = Flt.fin 0) :=
  ⟨by decide, by decide!, by decide, by decide!, by decide, saliency_gray_const⟩

/-! ## C5: the result of the insonification correction does not exceed 1 -/

/-- C5: for every raster `src` with at least one row and every 8-bit mask of the same size,
`insonification_correction` returns a `dst` of the size of `src` no pixel of which exceeds 1,
whatever the gain factors are: every pixel is `<= 1`, a NaN pixel (which compares false with
everything and arises only from non-finite pixels of `src`) apart; when all pixels of `src`
are finite, every pixel of `dst` is `<= 1`. -/
theorem insonification_correction_le_one (src : Mat Flt) (mask : Mat Nat)
    (hrows : 0 < src.rows) (hsize : mask.rows = src.rows ∧ mask.cols = src.cols) :
    ∃ dst, insonification_correction src mask = some dst ∧
      dst.rows = src.rows ∧ dst.cols = src.cols ∧
      (∀ y x, Flt.lt (Flt.fin 1) (dst.data y x) = false ∧
        (Flt.le (dst.data y x) (Flt.fin 1) = true ∨ dst.data y x = Flt.nan)) ∧
      ((∀ y x, y < src.rows → x < src.cols → (src.data y x).isFinite = true) →
        ∀ y x, y < src.rows → x < src.cols → Flt.le (dst.data y x) (Flt.fin 1) = true) := by
  obtain ⟨m, hm, heq⟩ := insonification_correction_eq src mask hrows hsize
  refine ⟨_, heq, rfl, rfl, ?_, ?_⟩
  · intro y x
    have h1 := Flt.lt_one_clamp
      (if 30 ≤ y ∧ y < src.rows ∧
          (insonification_row_mean src mask).getD y (Flt.fin 0) ≠ Flt.fin 0 then
        src.data y x * (m / (insonification_row_mean src mask).getD y (Flt.fin 0))
      else src.data y x)
    exact ⟨h1, Flt.le_of_not_lt _ h1⟩
  · intro hfin y x hy hx
    have h1 := Flt.lt_one_clamp
      (if 30 ≤ y ∧ y < src.rows ∧
          (insonification_row_mean src mask).getD y (Flt.fin 0) ≠ Flt.fin 0 then
        src.data y x * (m / (insonification_row_mean src mask).getD y (Flt.fin 0))
      else src.data y x)
    rcases Flt.le_of_not_lt _ h1 with h2 | h2
    · exact h2
    · exfalso
      obtain ⟨p, hp⟩ := (Flt.isFinite_iff _).1 (hfin y x hy hx)
      obtain ⟨mq, hmq⟩ := insonification_row_mean_finite src mask hfin m
        (max_element_mem _ _ hm)
      have hlen : y < (insonification_row_mean src mask).length := by
        rw [insonification_row_mean_length]; exact hy
      have hget : (insonification_row_mean src mask).getD y (Flt.fin 0) =
          (insonification_row_mean src mask)[y] := by
        rw [List.getD_eq_getElem?_getD, List.getElem?_eq_getElem hlen]; rfl
      obtain ⟨r, hr⟩ := insonification_row_mean_finite src mask hfin _
        (List.getElem_mem hlen)
      rw [hget, hr, hp, hmq] at h2
      by_cases hr0 : r = 0
      · subst hr0
        simp at h2
        split_ifs at h2
      · have hne : Flt.fin r ≠ Flt.fin 0 := fun h => hr0 (Flt.fin.inj h)
        rw [Flt.div_fin _ _ hr0, Flt.mul_fin] at h2
        split_ifs at h2

/-- Witness for C5: the `31 x 2` raster of `1/2` with its right column masked out. -/
theorem insonification_correction_le_one_witness :
    (0 < halfImage.rows ∧ leftMask.rows = halfImage.rows ∧ leftMask.cols = halfImage.cols) ∧
    ∃ dst, insonification_correction halfImage leftMask = some dst ∧
      dst.rows = halfImage.rows ∧ dst.cols = halfImage.cols ∧
      (∀ y x, Flt.lt (Flt.fin 1) (dst.data y x) = false ∧
        (Flt.le (dst.data y x) (Flt.fin 1) = true ∨ dst.data y x = Flt.nan)) ∧
      ((∀ y x, y < halfImage.rows → x < halfImage.cols →
          (halfImage.data y x).isFinite = true) →
        ∀ y x, y < halfImage.rows → x < halfImage.cols →
          Flt.le (dst.data y x) (Flt.fin 1) = true) :=
  ⟨by decide, insonification_correction_le_one halfImage leftMask (by decide) (by decide)⟩

/-! ## C6: rows without valid pixels -/

/-- C6, as the claim states it, fails: on a `31 x 1` raster holding the pixel 2 in every row
with an all-zero mask, row 30 (like every row) has no valid pixel, and `dst` holds 1 where
`src` holds 2; the same happens in the only row of a `1 x 1` raster. -/
theorem insonification_correction_unmasked_row_changed :
    cv_countNonZero_row (constMask 31 1 0) 30 = 0 ∧
    (constMat 31 1 (Flt.fin 2)).data 30 0 = Flt.fin 2 ∧
    (insonification_correction (constMat 31 1 (Flt.fin 2)) (constMask 31 1 0)).map
      (fun dst => dst.data 30 0) = some (Flt.fin 1) ∧
    cv_countNonZero_row (constMask 1 1 0) 0 = 0 ∧
    (constMat 1 1 (Flt.fin 2)).data 0 0 = Flt.fin 2 ∧
    (insonification_correction (constMat 1 1 (Flt.fin 2)) (constMask 1 1 0)).map
      (fun dst => dst.data 0 0) = some (Flt.fin 1) := by
  decide!

/-- C6 (amended): for every raster `src` with at least one row and every mask of the same
size, each pixel of a row of `dst` whose mask row has no non-zero pixel is the pixel of
`src` clamped by the final `dst.setTo(1, dst > 1)`: it is 1 where the pixel of `src`
exceeds 1 and the pixel of `src` itself everywhere else; the row is not rescaled. -/
theorem insonification_correction_unmasked_row (src : Mat Flt) (mask : Mat Nat)
    (y : Nat) (hrows : 0 < src.rows) (hsize : mask.rows = src.rows ∧ mask.cols = src.cols)
    (hcount : cv_countNonZero_row mask y = 0) :
    ∃ dst, insonification_correction src mask = some dst ∧
      ∀ x, dst.data y x =
        (if Flt.lt (Flt.fin 1) (src.data y x) then Flt.fin 1 else src.data y x) := by
  obtain ⟨m, _, heq⟩ := insonification_correction_eq src mask hrows hsize
  refine ⟨_, heq, ?_⟩
  intro x
  have hz : (insonification_row_mean src mask).getD y (Flt.fin 0) = Flt.fin 0 := by
    rw [List.getD_eq_getElem?_getD, insonification_row_mean_getElem?]
    by_cases hy : y < src.rows
    · simp [hy, hcount]
    · simp [hy]
  simp only [hz, ne_eq, not_true_eq_false, and_false, if_false]

/-- Witness for the amended C6: the `1 x 1` raster holding 2 with an all-zero mask. -/
theorem insonification_correction_unmasked_row_witness :
    (0 < (constMat 1 1 (Flt.fin 2)).rows ∧
      ((constMask 1 1 0).rows = (constMat 1 1 (Flt.fin 2)).rows ∧
        (constMask 1 1 0).cols = (constMat 1 1 (Flt.fin 2)).cols) ∧
      cv_countNonZero_row (constMask 1 1 0) 0 = 0) ∧
    ∃ dst, insonification_correction (constMat 1 1 (Flt.fin 2)) (constMask 1 1 0) = some dst ∧
      ∀ x, dst.data 0 x =
        (if Flt.lt (Flt.fin 1) ((constMat 1 1 (Flt.fin 2)).data 0 x) then Flt.fin 1
         else (constMat 1 1 (Flt.fin 2)).data 0 x) :=
  ⟨by decide, insonification_correction_unmasked_row (constMat 1 1 (Flt.fin 2))
    (constMask 1 1 0) 0 (by decide) (by decide) (by decide)⟩

/-! ## C7: the boundary row found by `ExtractROI` -/

/-- C7, as the claim states it, fails: on the one-column image with pixels `9, 1, 1, 0`, a
full mask, `alpha = 1/2` and the scan range `[0, 3]`, the cumulative sums are `0, 1, 2` and
the threshold is `1/2 * (2 - 0) + 0 = 1`.  `std::replace_if` keeps the entry 1, which is not
below the threshold, so `std::find_if` stops at scan index 1 and `roi_line = 4 - 2 = 2`; the
smallest scan index whose sum strictly exceeds the threshold is 2, which gives row 1. -/
theorem ExtractROI_roi_line_not_strict :
    ExtractROI_accum_sum roiImage roiMask 0 3 = [Flt.fin 0, Flt.fin 1, Flt.fin 2] ∧
    min_element [Flt.fin 0, Flt.fin 1, Flt.fin 2] = some (Flt.fin 0) ∧
    max_element [Flt.fin 0, Flt.fin 1, Flt.fin 2] = some (Flt.fin 2) ∧
    ExtractROI_thresh (Flt.fin (1 / 2)) (Flt.fin 0) (Flt.fin 2) = Flt.fin 1 ∧
    (ExtractROI roiImage roiMask (Flt.fin (1 / 2)) 0 3).map (fun res => res.roi_line) =
      some 2 ∧
    roi_line_spec 4 [Flt.fin 0, Flt.fin 1, Flt.fin 2] (Flt.fin 1) = 1 := by
  decide!

/-- C7 (amended): for every input on which `ExtractROI` returns, `roi_line = rows - (k+1)`,
where scan index `i` (from `start_row` on) reads image and mask row `rows - i - 1`, the
entries below `start_row` are 0, and `k` is the smallest index of the cumulative curve
`accum_sum` whose value is not below the threshold `alpha*(max-min)+min` and is above 0
(`k` is the length of the curve when it has no such entry). -/
theorem ExtractROI_roi_line (img : Mat Flt) (mask : Mat Nat) (alpha : Flt) (s e : Int)
    (res : ROIResult) (he : e < 2147483648) (himg : img.rows < 2147483648)
    (hmask : mask.rows < 2147483648) (h : ExtractROI img mask alpha s e = some res) :
    ∃ (mn mx : Flt) (k : Nat),
      min_element (ExtractROI_accum_sum img mask s e) = some mn ∧
      max_element (ExtractROI_accum_sum img mask s e) = some mx ∧
      (res.roi_line : Int) = (mask.rows : Int) - ((k : Int) + 1) ∧
      k ≤ (ExtractROI_accum_sum img mask s e).length ∧
      (∀ j w, j < k → (ExtractROI_accum_sum img mask s e)[j]? = some w →
        (Flt.lt w (alpha * (mx - mn) + mn) = true ∨ Flt.lt (Flt.fin 0) w = false)) ∧
      (∀ w, (ExtractROI_accum_sum img mask s e)[k]? = some w →
        (Flt.lt w (alpha * (mx - mn) + mn) = false ∧ Flt.lt (Flt.fin 0) w = true)) ∧
      ExtractROI_accum_sum img mask s e = partial_sum (ExtractROI_row_mean img mask s e) ∧
      (∀ i, i < (ExtractROI_row_mean img mask s e).length →
        (ExtractROI_row_mean img mask s e)[i]? =
          some (if 0 ≤ s ∧ s ≤ (i : Int) then
            Flt.nanToZero (cv_sum_row img (img.rows - i - 1) /
              Flt.ofNat (cv_countNonZero_row mask (img.rows - i - 1)))
          else Flt.fin 0)) := by
  obtain ⟨mn, mx, hmin, hmax, hfit, hline, _, _, _, _⟩ :=
    ExtractROI_eq img mask alpha s e res he himg hmask h
  have hfind := find_greater_zero_replace_less (ExtractROI_thresh alpha mn mx)
    (ExtractROI_accum_sum img mask s e)
  have hle := find_greater_zero_le (replace_less (ExtractROI_thresh alpha mn mx)
    (ExtractROI_accum_sum img mask s e))
  rw [replace_less_length] at hle
  refine ⟨mn, mx, _, hmin, hmax, ?_, hle, hfind.1, hfind.2, rfl, ?_⟩
  · rw [hline]; omega
  · intro i hi
    rw [ExtractROI_row_mean_length] at hi
    rw [ExtractROI_row_mean_getElem? img mask s e i hi]
    rfl

/-- Witness for the amended C7: the four-row image, `alpha = 1/2`, scan range
`[0, 3]`. -/
theorem ExtractROI_roi_line_witness :
    ∃ res, ((3 : Int) < 2147483648 ∧ roiImage.rows < 2147483648 ∧
        roiMask.rows < 2147483648 ∧
        ExtractROI roiImage roiMask (Flt.fin (1 / 2)) 0 3 = some res) ∧
      ∃ (mn mx : Flt) (k : Nat),
        min_element (ExtractROI_accum_sum roiImage roiMask 0 3) = some mn ∧
        max_element (ExtractROI_accum_sum roiImage roiMask 0 3) = some mx ∧
        (res.roi_line : Int) = (roiMask.rows : Int) - ((k : Int) + 1) ∧
        k ≤ (ExtractROI_accum_sum roiImage roiMask 0 3).length ∧
        (∀ j w, j < k → (ExtractROI_accum_sum roiImage roiMask 0 3)[j]? = some w →
          (Flt.lt w (Flt.fin (1 / 2) * (mx - mn) + mn) = true ∨
            Flt.lt (Flt.fin 0) w = false)) ∧
        (∀ w, (ExtractROI_accum_sum roiImage roiMask 0 3)[k]? = some w →
          (Flt.lt w (Flt.fin (1 / 2) * (mx - mn) + mn) = false ∧
            Flt.lt (Flt.fin 0) w = true)) ∧
        ExtractROI_accum_sum roiImage roiMask 0 3 =
          partial_sum (ExtractROI_row_mean roiImage roiMask 0 3) ∧
        (∀ i, i < (ExtractROI_row_mean roiImage roiMask 0 3).length →
          (ExtractROI_row_mean roiImage roiMask 0 3)[i]? =
            some (if (0 : Int) ≤ 0 ∧ (0 : Int) ≤ (i : Int) then
              Flt.nanToZero (cv_sum_row roiImage (roiImage.rows - i - 1) /
                Flt.ofNat (cv_countNonZero_row roiMask (roiImage.rows - i - 1)))
            else Flt.fin 0)) :=
  ⟨(ExtractROI roiImage roiMask (Flt.fin (1 / 2)) 0 3).get (by decide!),
    ⟨by decide, by decide, by decide, (Option.some_get _).symm⟩,
    ExtractROI_roi_line roiImage roiMask (Flt.fin (1 / 2)) 0 3 _ (by decide) (by decide)
      (by decide) (Option.some_get _).symm⟩

/-! ## C8: the trimmed mask -/

/-- C8: for every input on which `ExtractROI` returns, the mask `roi_cart` has the size of
the input mask, equals the input mask on every row with index `< roi_line` and is 0 on every
row with index `>= roi_line`, in all columns, `roi_line` being the reported boundary (which
lies inside the mask). -/
theorem ExtractROI_roi_cart (img : Mat Flt) (mask : Mat Nat) (alpha : Flt) (s e : Int)
    (res : ROIResult) (he : e < 2147483648) (himg : img.rows < 2147483648)
    (hmask : mask.rows < 2147483648) (h : ExtractROI img mask alpha s e = some res) :
    res.roi_cart.rows = mask.rows ∧ res.roi_cart.cols = mask.cols ∧
    res.roi_line < mask.rows ∧
    ∀ y x, y < mask.rows → x < mask.cols →
      (y < res.roi_line → res.roi_cart.data y x = mask.data y x) ∧
      (res.roi_line ≤ y → res.roi_cart.data y x = 0) := by
  obtain ⟨mn, mx, _, _, hfit, hline, hr, hc, _, hdata⟩ :=
    ExtractROI_eq img mask alpha s e res he himg hmask h
  refine ⟨hr, hc, by omega, ?_⟩
  intro y x hy hx
  constructor
  · intro hlt
    rw [hdata y x hy hx, if_neg (by omega)]
  · intro hge
    rw [hdata y x hy hx, if_pos hge]

/-- Witness for C8: the four-row image, `alpha = 1/2`, scan range
`[0, 3]`. -/
theorem ExtractROI_roi_cart_witness :
    ∃ res, ((3 : Int) < 2147483648 ∧ roiImage.rows < 2147483648 ∧
        roiMask.rows < 2147483648 ∧
        ExtractROI roiImage roiMask (Flt.fin (1 / 2)) 0 3 = some res) ∧
      (res.roi_cart.rows = roiMask.rows ∧ res.roi_cart.cols = roiMask.cols ∧
      res.roi_line < roiMask.rows ∧
      ∀ y x, y < roiMask.rows → x < roiMask.cols →
        (y < res.roi_line → res.roi_cart.data y x = roiMask.data y x) ∧
        (res.roi_line ≤ y → res.roi_cart.data y x = 0)) :=
  ⟨(ExtractROI roiImage roiMask (Flt.fin (1 / 2)) 0 3).get (by decide!),
    ⟨by decide, by decide, by decide, (Option.some_get _).symm⟩,
    ExtractROI_roi_cart roiImage roiMask (Flt.fin (1 / 2)) 0 3 _ (by decide) (by decide)
      (by decide) (Option.some_get _).symm⟩

/-! ## C9: the row mean of the insonification correction -/

/-- C9, as the claim states it, fails: on the `31 x 2` raster of `1/2` whose column 1 is
masked out, the entry `row_mean[30]` is `(1/2 + 1/2) / 1 = 1`, whereas the sum over the
mask-valid pixels divided by their number is `1/2`. -/
theorem insonification_row_mean_counts_masked_pixels :
    (insonification_row_mean halfImage leftMask)[30]? = some (Flt.fin 1) ∧
    cv_countNonZero_row leftMask 30 = 1 ∧
    masked_sum_row halfImage leftMask 30 / Flt.ofNat (cv_countNonZero_row leftMask 30) =
      Flt.fin (1 / 2) := by
  decide!

/-- C9 (amended): for every row `i >= 30` of `src` with at least one mask-valid pixel,
`row_mean[i]` is the sum of all pixels of row `i` of `src`, masked out or not, divided by the
number of mask-valid pixels of the row (NaN replaced by 0); it is the mean over the mask-valid
pixels when every masked-out pixel of the row is 0. -/
theorem insonification_row_mean_spec (src : Mat Flt) (mask : Mat Nat) (i : Nat)
    (h30 : 30 ≤ i) (hi : i < src.rows) (hvalid : cv_countNonZero_row mask i ≠ 0) :
    (insonification_row_mean src mask)[i]? =
      some (Flt.nanToZero (cv_sum_row src i / Flt.ofNat (cv_countNonZero_row mask i))) ∧
    ((∀ x, x < src.cols → mask.data i x = 0 → src.data i x = Flt.fin 0) →
      (insonification_row_mean src mask)[i]? =
        some (Flt.nanToZero
          (masked_sum_row src mask i / Flt.ofNat (cv_countNonZero_row mask i)))) := by
  have h1 : (insonification_row_mean src mask)[i]? =
      some (Flt.nanToZero (cv_sum_row src i / Flt.ofNat (cv_countNonZero_row mask i))) := by
    rw [insonification_row_mean_getElem?, if_pos hi, if_pos ⟨h30, hvalid⟩]
  refine ⟨h1, ?_⟩
  intro hzero
  have h2 : masked_sum_row src mask i = cv_sum_row src i := by
    unfold masked_sum_row cv_sum_row
    apply sumTo_congr
    intro x hx
    by_cases hm : mask.data i x = 0
    · simp [hm, hzero x hx hm]
    · simp [hm]
  rw [h2]
  exact h1

/-- Witness for the amended C9: row 30 of the `31 x 2` raster of `1/2`. -/
theorem insonification_row_mean_spec_witness :
    (30 ≤ 30 ∧ 30 < halfImage.rows ∧ cv_countNonZero_row leftMask 30 ≠ 0) ∧
    ((insonification_row_mean halfImage leftMask)[30]? =
      some (Flt.nanToZero
        (cv_sum_row halfImage 30 / Flt.ofNat (cv_countNonZero_row leftMask 30))) ∧
    ((∀ x, x < halfImage.cols → leftMask.data 30 x = 0 → halfImage.data 30 x = Flt.fin 0) →
      (insonification_row_mean halfImage leftMask)[30]? =
        some (Flt.nanToZero
          (masked_sum_row halfImage leftMask 30 /
            Flt.ofNat (cv_countNonZero_row leftMask 30))))) :=
  ⟨by decide, insonification_row_mean_spec halfImage leftMask 30 (by decide) (by decide)
    (by decide)⟩

/-! ## C10: the output argument of `meand_filter` -/

/-- C10: the code does not deliver the filtered raster.  For the `2 x 2` raster of `1/2`,
radii 2 and 1 and a fresh (empty) output argument, the output argument is still empty after
`meand_filter` (0 rows, 0 columns, not the `2 x 2` of `src`), although the local `dst` has
the size of `src`; and for every input the output argument is returned as it was passed. -/
theorem meand_filter_output_untouched :
    (meand_filter (constMat 2 2 (Flt.fin (1 / 2))) emptyMat 2 1 noArray).rows = 0 ∧
    (meand_filter (constMat 2 2 (Flt.fin (1 / 2))) emptyMat 2 1 noArray).cols = 0 ∧
    (meand_filter_dst (constMat 2 2 (Flt.fin (1 / 2))) 2 1).rows = 2 ∧
    (meand_filter_dst (constMat 2 2 (Flt.fin (1 / 2))) 2 1).cols = 2 ∧
    (∀ (src dst_arr : Mat Flt) (ksize_outer ksize_inner : Int) (mask : Mat Nat),
      meand_filter src dst_arr ksize_outer ksize_inner mask = dst_arr) :=
  ⟨rfl, rfl, rfl, rfl, fun _ _ _ _ _ => rfl⟩

/-! ## C11: the value computed by the mean-difference filter -/

/-- C11: for every pair of equally sized rasters `src0` (finite pixels) and `src1`, every
radius `ksize >= 0` and every mask-valid pixel `(x, y)`, `mean_difference_filter` outputs
`clip(src1(x,y) - mean of src0 over neighborhood_rect(x,y,ksize), 0, 1)`: the mean (sum of
the pixels of the window divided by its area) is taken over the first raster and subtracted
from the pixel of the second. -/
theorem mean_difference_filter_value (src0 src1 : Mat Flt) (ksize : Int) (mask : Mat Nat)
    (y x : Nat) (hsize : src0.rows = src1.rows ∧ src0.cols = src1.cols) (hk : 0 ≤ ksize)
    (hfin0 : ∀ y x, y < src0.rows → x < src0.cols → (src0.data y x).isFinite = true)
    (hy : y < src0.rows) (hx : x < src0.cols)
    (hvalid : mask.empty = true ∨ mask.data y x ≠ 0) :
    ∃ dst, mean_difference_filter src0 src1 ksize mask = some dst ∧
      dst.data y x =
        clip (src1.data y x - rect_mean src0 (neighborhood_rect x y ksize src0.cols src0.rows))
          (Flt.fin 0) (Flt.fin 1) := by
  unfold mean_difference_filter
  rw [if_pos hsize]
  refine ⟨_, rfl, ?_⟩
  have hm : (!mask.empty && mask.data y x == 0) = false := mask_test_false mask y x hvalid
  simp only [hy, hx, and_self, if_true, hm, Bool.false_eq_true, if_false]
  rw [integral_image_sum_neighborhood src0 hfin0 x y ksize hk hx hy]
  rfl

/-- Witness for C11: the centre pixel of the `3 x 3` raster of `1/2`, radius 1, no mask. -/
theorem mean_difference_filter_value_witness :
    ((halfImage3.rows = halfImage3.rows ∧ halfImage3.cols = halfImage3.cols) ∧
      (0 : Int) ≤ 1 ∧
      (∀ y x, y < halfImage3.rows → x < halfImage3.cols →
        (halfImage3.data y x).isFinite = true) ∧
      1 < halfImage3.rows ∧ 1 < halfImage3.cols ∧
      (noArray.empty = true ∨ noArray.data 1 1 ≠ 0)) ∧
    ∃ dst, mean_difference_filter halfImage3 halfImage3 1 noArray = some dst ∧
      dst.data 1 1 =
        clip (halfImage3.data 1 1 -
            rect_mean halfImage3 (neighborhood_rect 1 1 1 halfImage3.cols halfImage3.rows))
          (Flt.fin 0) (Flt.fin 1) :=
  ⟨⟨⟨rfl, rfl⟩, by decide, fun _ _ _ _ => rfl, by decide, by decide, Or.inl rfl⟩,
    mean_difference_filter_value halfImage3 halfImage3 1 noArray 1 1 ⟨rfl, rfl⟩ (by decide)
      (fun _ _ _ _ => rfl) (by decide) (by decide) (Or.inl rfl)⟩

/-! ## C12: `filter2d` computes a pixel only under full mask coverage -/

/-- C12: for every 8-bit image, non-empty square float kernel and 8-bit mask, `filter2d`
returns a raster of the size of the image that is 0 at every pixel for which at least one
pixel under the kernel footprint is masked out, and at every pixel whose footprint would
leave the image; a non-zero output at `(x, y)` implies that all `kernel.rows * kernel.cols`
footprint pixels are mask-valid (and inside the image).  The same zeros appear in the output
of the mask-aware `border_filter` for each of its `3 x 3` kernel families. -/
theorem filter2d_all_or_nothing (src : Mat Nat) (kernel : Mat Flt) (mask : Mat Nat)
    (y x : Nat) (hne : kernel.empty = false) (hsq : kernel.cols = kernel.rows) :
    (∃ dst, filter2d src kernel mask = some dst ∧
      dst.rows = src.rows ∧ dst.cols = src.cols ∧
      (¬ footprint_valid kernel mask y x → dst.data y x = 0) ∧
      (¬ footprint_inside src kernel y x → dst.data y x = 0) ∧
      (dst.data y x ≠ 0 →
        footprint_valid kernel mask y x ∧ footprint_inside src kernel y x)) ∧
    (∀ type : BorderFilterType, ∃ out, border_filter src mask type = some out ∧
      (¬ footprint_valid (border_filter_kernel 0 type) mask y x ∨
          ¬ footprint_inside src (border_filter_kernel 0 type) y x →
        out.data y x = 0)) := by
  constructor
  · obtain ⟨dst, hdst, hr, hc, hz⟩ := filter2d_eq src kernel mask hne hsq
    refine ⟨dst, hdst, hr, hc, (hz y x).1, (hz y x).2, ?_⟩
    intro hnz
    constructor
    · by_contra hv
      exact hnz ((hz y x).1 hv)
    · by_contra hi
      exact hnz ((hz y x).2 hi)
  · intro type
    obtain ⟨r0, c0⟩ := border_filter_kernel_size 0 type
    obtain ⟨r1, c1⟩ := border_filter_kernel_size 1 type
    obtain ⟨gx, hgx, _, _, hzx⟩ := filter2d_eq src (border_filter_kernel 0 type) mask
      (by simp [Mat.empty, r0, c0]) (by rw [r0, c0])
    obtain ⟨gy, hgy, _, _, hzy⟩ := filter2d_eq src (border_filter_kernel 1 type) mask
      (by simp [Mat.empty, r1, c1]) (by rw [r1, c1])
    refine ⟨addWeighted gx (Flt.fin (1 / 2)) gy (Flt.fin (1 / 2)) (Flt.fin 0), ?_, ?_⟩
    · unfold border_filter
      rw [hgx, hgy]
    · intro h
      have hx0 : gx.data y x = 0 := by
        rcases h with h | h
        · exact (hzx y x).1 h
        · exact (hzx y x).2 h
      have hy0 : gy.data y x = 0 := by
        rcases h with h | h
        · apply (hzy y x).1
          intro hv
          apply h
          unfold footprint_valid at hv ⊢
          rw [r0, c0]
          rw [r1, c1] at hv
          exact hv
        · apply (hzy y x).2
          intro hv
          apply h
          unfold footprint_inside at hv ⊢
          rw [r0, c0]
          rw [r1, c1] at hv
          exact hv
      show saturate_cast_uchar (Flt.ofNat (gx.data y x) * Flt.fin (1 / 2) +
        Flt.ofNat (gy.data y x) * Flt.fin (1 / 2) + Flt.fin 0) = 0
      rw [hx0, hy0]
      decide!

/-- Witness for C12: the Sobel kernel on the `3 x 3` raster of tens with the spot mask. -/
theorem filter2d_all_or_nothing_witness :
    ((border_filter_kernel 0 BorderFilterType.kSobel).empty = false ∧
      (border_filter_kernel 0 BorderFilterType.kSobel).cols =
        (border_filter_kernel 0 BorderFilterType.kSobel).rows) ∧
    ((∃ dst, filter2d tenImage (border_filter_kernel 0 BorderFilterType.kSobel) spotMask =
        some dst ∧
      dst.rows = tenImage.rows ∧ dst.cols = tenImage.cols ∧
      (¬ footprint_valid (border_filter_kernel 0 BorderFilterType.kSobel) spotMask 1 1 →
        dst.data 1 1 = 0) ∧
      (¬ footprint_inside tenImage (border_filter_kernel 0 BorderFilterType.kSobel) 1 1 →
        dst.data 1 1 = 0) ∧
      (dst.data 1 1 ≠ 0 →
        footprint_valid (border_filter_kernel 0 BorderFilterType.kSobel) spotMask 1 1 ∧
        footprint_inside tenImage (border_filter_kernel 0 BorderFilterType.kSobel) 1 1)) ∧
    (∀ type : BorderFilterType, ∃ out, border_filter tenImage spotMask type = some out ∧
      (¬ footprint_valid (border_filter_kernel 0 type) spotMask 1 1 ∨
          ¬ footprint_inside tenImage (border_filter_kernel 0 type) 1 1 →
        out.data 1 1 = 0))) :=
  ⟨⟨by decide, by decide⟩,
    filter2d_all_or_nothing tenImage (border_filter_kernel 0 BorderFilterType.kSobel)
      spotMask 1 1 (by decide) (by decide)⟩

/-! ## C13: the mean filter and masked-out pixels of the window -/

/-- C13, as the claim states it, fails: on the `3 x 3` raster that is 1 at `(0,0)` and 0
elsewhere, with the mask that is 0 at `(0,0)` only and the radius 1, the window of the
mask-valid pixel `(1,1)` holds the four pixels of rows 0..1 and columns 0..1; `mean_filter`
writes `(1+0+0+0)/4 = 1/4`, whereas the mean of the three mask-valid pixels of the window
is 0. -/
theorem mean_filter_counts_masked_pixels :
    spotMask.data 1 1 = 255 ∧
    (neighborhood_rect 1 1 1 3 3).x = 0 ∧ (neighborhood_rect 1 1 1 3 3).y = 0 ∧
    (neighborhood_rect 1 1 1 3 3).width = 2 ∧ (neighborhood_rect 1 1 1 3 3).height = 2 ∧
    (mean_filter spotImage 1 spotMask).data 1 1 = Flt.fin (1 / 4) ∧
    masked_rect_count spotMask (neighborhood_rect 1 1 1 3 3) = 3 ∧
    masked_rect_sum spotImage spotMask (neighborhood_rect 1 1 1 3 3) /
      Flt.ofNat (masked_rect_count spotMask (neighborhood_rect 1 1 1 3 3)) = Flt.fin 0 := by
  decide!

/-- C13 (amended): when a mask is given (or not), the value `mean_filter` writes at a
mask-valid pixel of a raster of finite pixels, for a radius `ksize >= 0`, is the mean of
all pixels of `src` inside that pixel's window, masked out or not: their sum divided by the
area of the window.  The mask decides only whether the output pixel is written. -/
theorem mean_filter_value (src : Mat Flt) (ksize : Int) (mask : Mat Nat) (y x : Nat)
    (hk : 0 ≤ ksize)
    (hfin : ∀ y x, y < src.rows → x < src.cols → (src.data y x).isFinite = true)
    (hy : y < src.rows) (hx : x < src.cols)
    (hvalid : mask.empty = true ∨ mask.data y x ≠ 0) :
    (mean_filter src ksize mask).data y x =
      rect_mean src (neighborhood_rect x y ksize src.cols src.rows) := by
  have hw : (((cv_integral src).cols : Int) - 1) = (src.cols : Int) := by
    simp [cv_integral]
  have hh : (((cv_integral src).rows : Int) - 1) = (src.rows : Int) := by
    simp [cv_integral]
  unfold mean_filter integral_mean_filter
  simp only [hw, hh, Int.toNat_ofNat]
  have hm : (!mask.empty && mask.data y x == 0) = false := mask_test_false mask y x hvalid
  simp only [hy, hx, and_self, if_true, hm, Bool.false_eq_true, if_false]
  rw [integral_image_sum_neighborhood src hfin x y ksize hk hx hy]
  rfl

/-- Witness for the amended C13: pixel `(1,1)` of the `3 x 3` spot raster, radius 1. -/
theorem mean_filter_value_witness :
    ((0 : Int) ≤ 1 ∧
      (∀ y x, y < spotImage.rows → x < spotImage.cols →
        (spotImage.data y x).isFinite = true) ∧
      1 < spotImage.rows ∧ 1 < spotImage.cols ∧
      (spotMask.empty = true ∨ spotMask.data 1 1 ≠ 0)) ∧
    (mean_filter spotImage 1 spotMask).data 1 1 =
      rect_mean spotImage (neighborhood_rect 1 1 1 spotImage.cols spotImage.rows) :=
  ⟨⟨by decide, fun y x _ _ => by unfold spotImage; simp only []; split_ifs <;> rfl,
      by decide, by decide, Or.inr (by decide)⟩,
    mean_filter_value spotImage 1 spotMask 1 1 (by decide)
      (fun y x _ _ => by unfold spotImage; simp only []; split_ifs <;> rfl)
      (by decide) (by decide) (Or.inr (by decide))⟩

/-! ## C14: masked-out pixels of the output -/

/-- C14: for every input raster (pair of equally sized rasters for the mean-difference
filter), every radius and every non-empty mask, `mean_filter`, `mean_difference_filter` and
`saliency_gray` each output exactly 0 at every pixel whose mask value is 0, whatever the
pixel values of the input are. -/
theorem masked_pixels_zero (src src0 src1 : Mat Flt) (ksize : Int) (mask : Mat Nat)
    (y x : Nat) (hne : mask.empty = false) (hzero : mask.data y x = 0)
    (hsize : src0.rows = src1.rows ∧ src0.cols = src1.cols) :
    (mean_filter src ksize mask).data y x = Flt.fin 0 ∧
    (∃ dst, mean_difference_filter src0 src1 ksize mask = some dst ∧
      dst.data y x = Flt.fin 0) ∧
    (saliency_gray src mask).data y x = Flt.fin 0 := by
  have hm : (!mask.empty && mask.data y x == 0) = true := by simp [hne, hzero]
  refine ⟨?_, ?_, ?_⟩
  · unfold mean_filter integral_mean_filter
    simp only [hm, if_true]
    split_ifs <;> rfl
  · unfold mean_difference_filter
    rw [if_pos hsize]
    refine ⟨_, rfl, ?_⟩
    simp only [hm, if_true]
    split_ifs <;> rfl
  · unfold saliency_gray
    simp only [hm, if_true]
    split_ifs <;> rfl

/-- Witness for C14: the masked-out pixel `(0,0)` of the `3 x 3` spot raster. -/
theorem masked_pixels_zero_witness :
    (spotMask.empty = false ∧ spotMask.data 0 0 = 0 ∧
      (spotImage.rows = spotImage.rows ∧ spotImage.cols = spotImage.cols)) ∧
    ((mean_filter spotImage 1 spotMask).data 0 0 = Flt.fin 0 ∧
    (∃ dst, mean_difference_filter spotImage spotImage 1 spotMask = some dst ∧
      dst.data 0 0 = Flt.fin 0) ∧
    (saliency_gray spotImage spotMask).data 0 0 = Flt.fin 0) :=
  ⟨⟨by decide, by decide, rfl, rfl⟩,
    masked_pixels_zero spotImage spotImage spotImage 1 spotMask 0 0 (by decide) (by decide)
      ⟨rfl, rfl⟩⟩

/-! ## C15: the local mean of the gray saliency -/

/-- C15: the code does not compute the mean the claim states.  On the `9 x 9` raster that is
1 at `(8,8)` and 0 elsewhere the scales are `4, 2, 1`, and the window of scale 4 at the
centre pixel `(4,4)` is not clipped (`4 - 4 = 0`, `4 + 4 = 8 = width - 1`).  The code divides
the region sum by `NN = (x2-x1)*(y2-y1) = 64`, not by `(2*4+1)^2 = 81`, and its local mean
is 0, whereas the mean of the 81 pixels of the centred window is `1/81`; the output at
`(4,4)` is 0, whereas the sum over the scales of `(pixel - mean)^2` is `1/6561`.  For every
input one scale adds `(val - mean)^2` with the mean `saliency_gray_mean`. -/
theorem saliency_gray_window_off_by_one :
    saliency_scales 9 9 = [4, 2, 1] ∧
    (min ((4 : Int) + 4) (9 - 1) - max 0 ((4 : Int) - 4)) *
      (min ((4 : Int) + 4) (9 - 1) - max 0 ((4 : Int) - 4)) = 64 ∧
    saliency_gray_mean (cv_integral cornerImage) 9 9 4 4 4 = Flt.fin 0 ∧
    centred_window_mean cornerImage 4 4 4 = Flt.fin (1 / 81) ∧
    (saliency_gray cornerImage noArray).data 4 4 = Flt.fin 0 ∧
    saliency_gray_spec cornerImage 4 4 = Flt.fin (1 / 6561) ∧
    (∀ (integral : Mat Flt) (width height x y : Int) (val cv_sum : Flt) (n : Nat),
      saliency_gray_step integral width height x y val cv_sum n =
        cv_sum + (val - saliency_gray_mean integral width height x y n) *
          (val - saliency_gray_mean integral width height x y n)) :=
  ⟨by decide!, by decide!, by decide!, by decide!, by decide!, by decide!,
    fun _ _ _ _ _ _ _ _ => rfl⟩

/-! ## C16: scales with a masked-out corner in the colour saliency -/

/-- C16, as the claim states it, fails: with the `4 x 4` channel `L` that is 1 at `(1,1)`,
zero channels `A` and `B`, and the mask that is 0 at `(3,3)` only, the scales are `2, 1, 0`.
At the mask-valid pixel `(1,1)` the first scale has the masked-out corner `(3,3)`, the other
two scales have mask-valid corners.  The source leaves the loop at the first scale
(`break`) and writes 0; the sum of the contributions of the two scales with mask-valid
corners is `9/16 + 1 = 25/16`. -/
theorem saliency_color_break_skips_later_scales :
    cornerMask.data 1 1 = 255 ∧
    saliency_scales 4 4 = [2, 1, 0] ∧
    corners_valid cornerMask (scale_corners 4 4 1 1 2) = false ∧
    corners_valid cornerMask (scale_corners 4 4 1 1 1) = true ∧
    corners_valid cornerMask (scale_corners 4 4 1 1 0) = true ∧
    (saliency_color spotChannel zeroChannel zeroChannel cornerMask).data 1 1 = Flt.fin 0 ∧
    saliency_color_spec spotChannel zeroChannel zeroChannel cornerMask 1 1 =
      Flt.fin (25 / 16) := by
  decide!

/-- C16 (amended): in `saliency_color` with or without a mask, for every mask-valid pixel
the output is the sum of the per-scale contributions of the scales `k = 0, 1, 2` that come
before the first scale with a masked-out window corner `(x1,y1)` or `(x2,y2)`: that scale
and every scale after it contribute nothing.  When no scale has a masked-out corner, all
three scales contribute in full. -/
theorem saliency_color_value (L A B : Mat Flt) (mask : Mat Nat) (y x : Nat)
    (hy : y < L.rows) (hx : x < L.cols) (hvalid : mask.empty = true ∨ mask.data y x ≠ 0) :
    (saliency_color L A B mask).data y x =
      ((saliency_scales L.cols L.rows).takeWhile
          (fun n => corners_valid mask (scale_corners L.cols L.rows x y n))).foldl
        (fun s n => s + saliency_color_contribution L A B
          (scale_corners L.cols L.rows x y n) y x) (Flt.fin 0) ∧
    ((∀ n, n ∈ saliency_scales L.cols L.rows →
        corners_valid mask (scale_corners L.cols L.rows x y n) = true) →
      (saliency_color L A B mask).data y x = saliency_color_spec L A B mask y x) := by
  have hm : (!mask.empty && mask.data y x == 0) = false := mask_test_false mask y x hvalid
  have h1 : (saliency_color L A B mask).data y x =
      saliency_color_loop L A B mask y x (saliency_scales L.cols L.rows) (Flt.fin 0) := by
    unfold saliency_color
    simp only [hy, hx, and_self, if_true, hm, Bool.false_eq_true, if_false]
  rw [h1, saliency_color_loop_eq]
  refine ⟨rfl, ?_⟩
  intro hall
  unfold saliency_color_spec
  rw [List.takeWhile_eq_self_iff.2 (fun n hn => hall n hn)]
  apply List.foldl_ext
  intro s n hn
  rw [if_pos (hall n hn)]

/-- Witness for the amended C16: pixel `(1,1)` of the `4 x 4` example. -/
theorem saliency_color_value_witness :
    (1 < spotChannel.rows ∧ 1 < spotChannel.cols ∧
      (cornerMask.empty = true ∨ cornerMask.data 1 1 ≠ 0)) ∧
    ((saliency_color spotChannel zeroChannel zeroChannel cornerMask).data 1 1 =
      ((saliency_scales spotChannel.cols spotChannel.rows).takeWhile
          (fun n => corners_valid cornerMask
            (scale_corners spotChannel.cols spotChannel.rows 1 1 n))).foldl
        (fun s n => s + saliency_color_contribution spotChannel zeroChannel zeroChannel
          (scale_corners spotChannel.cols spotChannel.rows 1 1 n) 1 1) (Flt.fin 0) ∧
    ((∀ n, n ∈ saliency_scales spotChannel.cols spotChannel.rows →
        corners_valid cornerMask
          (scale_corners spotChannel.cols spotChannel.rows 1 1 n) = true) →
      (saliency_color spotChannel zeroChannel zeroChannel cornerMask).data 1 1 =
        saliency_color_spec spotChannel zeroChannel zeroChannel cornerMask 1 1)) :=
  ⟨⟨by decide, by decide, Or.inr (by decide)⟩,
    saliency_color_value spotChannel zeroChannel zeroChannel cornerMask 1 1 (by decide)
      (by decide) (Or.inr (by decide))⟩

/-! ## C17: the preconditions of `filter2d` -/

/-- C17: `filter2d` refuses to run (its `CV_Assert` fails before `dst` is touched, so no
output raster is produced) whenever the kernel is empty or not square
(`kernel.cols != kernel.rows`), and only then; in particular it never returns a partially
computed `dst` for such a kernel (a `2 x 3` kernel and an empty kernel are refused). -/
theorem filter2d_refuses :
    (∀ (src : Mat Nat) (kernel : Mat Flt) (mask : Mat Nat),
      filter2d src kernel mask = none ↔
        (kernel.empty = true ∨ kernel.cols ≠ kernel.rows)) ∧
    (filter2d tenImage wideKernel spotMask).isNone = true ∧
    (filter2d tenImage emptyMat spotMask).isNone = true := by
  refine ⟨?_, by decide, by decide⟩
  intro src kernel mask
  unfold filter2d
  by_cases he : kernel.empty = true
  · simp [he]
  · by_cases hs : kernel.cols = kernel.rows
    · simp [he, hs]
    · simp [he, hs]

/-! ## C18: scanned rows without a mask-valid pixel -/

/-- C18: the code does not give every scanned row without a mask-valid pixel the row mean 0.
On the one-column image of four pixels 1 whose bottom mask row is 0, scan index 0 reads row
3: its sum is 1, its count is 0, `1/0 = +inf` is not NaN and is stored: `row_mean` is
`+inf, 1, 1`, the cumulative sums are all `+inf`, and the threshold
`alpha*(max-min)+min` is NaN.  For every input, such a row with a non-zero finite pixel sum
gets `+inf` or `-inf`. -/
theorem ExtractROI_unmasked_row_infinite :
    cv_countNonZero_row bottomMask 3 = 0 ∧
    cv_sum_row onesImage 3 = Flt.fin 1 ∧
    ExtractROI_row_value onesImage bottomMask 0 = Flt.pinf ∧
    ExtractROI_row_mean onesImage bottomMask 0 3 = [Flt.pinf, Flt.fin 1, Flt.fin 1] ∧
    ExtractROI_accum_sum onesImage bottomMask 0 3 = [Flt.pinf, Flt.pinf, Flt.pinf] ∧
    ExtractROI_thresh (Flt.fin (1 / 200)) Flt.pinf Flt.pinf = Flt.nan ∧
    (∀ (img : Mat Flt) (mask : Mat Nat) (i : Nat) (q : ℚ),
      cv_countNonZero_row mask (img.rows - i - 1) = 0 →
      cv_sum_row img (img.rows - i - 1) = Flt.fin q → q ≠ 0 →
      (ExtractROI_row_value img mask i = Flt.pinf ∨
        ExtractROI_row_value img mask i = Flt.ninf)) :=
  ⟨by decide!, by decide!, by decide!, by decide!, by decide!, by decide!,
    ExtractROI_row_value_inf⟩

/-! ## C19: the mask passed to `ExtractROI` -/

/-- C19: the code changes the mask it is given.  On the four-row example (`alpha = 1/2`,
scan range `[0,3]`) the full input mask holds 255 at `(3,0)` and the caller's mask holds 0
there after the call, since `setTo` writes through the sub-raster header of `source_mask`
before the copy to `roi_cart`; the call `Apply` makes on a 32-row image of ones with a full
mask reports `roi_line = 1` and leaves 0 at `(31,0)` of the caller's mask.  On every
returning call the caller's mask ends up equal to `roi_cart`, with its last row zeroed. -/
theorem ExtractROI_overwrites_source_mask :
    roiMask.data 3 0 = 255 ∧
    (ExtractROI roiImage roiMask (Flt.fin (1 / 2)) 0 3).map
      (fun res => (res.roi_line, res.source_mask.data 3 0, res.roi_cart.data 3 0)) =
      some (2, 0, 0) ∧
    tallMask.data 31 0 = 255 ∧
    (Apply_ExtractROI tallImage tallMask).map
      (fun res => (res.roi_line, res.source_mask.data 31 0)) = some (1, 0) ∧
    (∀ (img : Mat Flt) (mask : Mat Nat) (alpha : Flt) (s e : Int) (res : ROIResult),
      e < 2147483648 → img.rows < 2147483648 → mask.rows < 2147483648 →
      ExtractROI img mask alpha s e = some res →
      res.source_mask = res.roi_cart ∧
        ∀ x, x < mask.cols → res.source_mask.data (mask.rows - 1) x = 0) := by
  refine ⟨by decide!, by decide!, by decide!, by decide!, ?_⟩
  intro img mask alpha s e res he himg hmask h
  obtain ⟨mn, mx, _, _, hfit, hline, _, _, hsame, hdata⟩ :=
    ExtractROI_eq img mask alpha s e res he himg hmask h
  refine ⟨hsame, ?_⟩
  intro x hx
  rw [hsame, hdata (mask.rows - 1) x (by omega) hx, if_pos (by omega)]

/-! ## C20: the indices used by the scan loop of `ExtractROI` -/

/-- C20: the code writes outside `row_mean`.  For the call `Apply` makes on a 32-row image
(`start_row = 30`, `end_row = 31`) the vector has 31 elements and the loop visits
`i = 30, 31`: the store `row_mean[31]` is one past the end.  For every scan range
`0 <= start_row <= end_row` the loop `i <= end_row` visits `i = end_row`, the size of the
vector, so the last store is never inside the vector; the rows read, `rows - i - 1`, are
inside the image whenever `end_row <= rows - 1`. -/
theorem ExtractROI_row_mean_overrun :
    ExtractROI_scan tallImage 30 ((tallImage.rows : Int) - 1) = [30, 31] ∧
    ExtractROI_row_mean_size tallImage ((tallImage.rows : Int) - 1) = 31 ∧
    (ExtractROI_row_mean tallImage tallMask 30 ((tallImage.rows : Int) - 1)).length = 31 ∧
    (∀ (img : Mat Flt) (s e : Int), 0 ≤ s → s ≤ e →
      e.toNat ∈ ExtractROI_scan img s e ∧ ExtractROI_row_mean_size img e = e.toNat ∧
        ¬ e.toNat < ExtractROI_row_mean_size img e) ∧
    (∀ (img : Mat Flt) (s e : Int) (i : Nat), 0 ≤ s → s ≤ e → e ≤ (img.rows : Int) - 1 →
      i ∈ ExtractROI_scan img s e → img.rows - i - 1 < img.rows) := by
  refine ⟨by decide!, by decide!, by decide!, ?_, ?_⟩
  · intro img s e hs hse
    have hend : ExtractROI_end_row img e = e := by
      unfold ExtractROI_end_row
      rw [if_neg (by omega)]
    have hsize : ExtractROI_row_mean_size img e = e.toNat := by
      unfold ExtractROI_row_mean_size
      rw [hend]
    refine ⟨?_, hsize, by omega⟩
    rw [ExtractROI_scan_mem img s e _ hs, hend]
    omega
  · intro img s e i hs hse he hi
    have hend : ExtractROI_end_row img e = e := by
      unfold ExtractROI_end_row
      rw [if_neg (by omega)]
    rw [ExtractROI_scan_mem img s e _ hs, hend] at hi
    omega

/-! ## C21: the insonification correction equalises the row means -/

/-- C21: for every `src` of finite pixels with at least one row and every mask of the same
size, `insonification_correction` returns a `dst` such that, with `max_mean` the maximum of
`row_mean` over all rows, every row `i >= 30` with a non-zero row mean none of whose
rescaled pixels exceeds 1 satisfies
`(sum of dst row i) / (number of valid mask pixels of row i) = max_mean`; a row attaining the
maximum is returned unchanged (in exact arithmetic). -/
theorem insonification_correction_equalises (src : Mat Flt) (mask : Mat Nat) (i : Nat)
    (hrows : 0 < src.rows) (hsize : mask.rows = src.rows ∧ mask.cols = src.cols)
    (hfin : ∀ y x, y < src.rows → x < src.cols → (src.data y x).isFinite = true)
    (h30 : 30 ≤ i) (hi : i < src.rows)
    (hnz : (insonification_row_mean src mask).getD i (Flt.fin 0) ≠ Flt.fin 0) :
    ∃ dst max_mean, insonification_correction src mask = some dst ∧
      max_element (insonification_row_mean src mask) = some max_mean ∧
      (∀ v, v ∈ insonification_row_mean src mask → Flt.le v max_mean = true) ∧
      ((∀ x, x < src.cols → Flt.lt (Flt.fin 1) (src.data i x *
          (max_mean / (insonification_row_mean src mask).getD i (Flt.fin 0))) = false) →
        cv_sum_row dst i / Flt.ofNat (cv_countNonZero_row mask i) = max_mean ∧
        ((insonification_row_mean src mask).getD i (Flt.fin 0) = max_mean →
          ∀ x, x < src.cols → dst.data i x = src.data i x)) := by
  obtain ⟨m, hm, heq⟩ := insonification_correction_eq src mask hrows hsize
  refine ⟨_, m, heq, hm, ?_, ?_⟩
  · exact max_element_ge _ m (insonification_row_mean_finite src mask hfin) hm
  · intro hno
    obtain ⟨mq, hmq⟩ := insonification_row_mean_finite src mask hfin m (max_element_mem _ _ hm)
    -- the entry `row_mean[i]`
    have hget : (insonification_row_mean src mask).getD i (Flt.fin 0) =
        (if 30 ≤ i ∧ cv_countNonZero_row mask i ≠ 0 then
          Flt.nanToZero (cv_sum_row src i / Flt.ofNat (cv_countNonZero_row mask i))
        else Flt.fin 0) := by
      rw [List.getD_eq_getElem?_getD, insonification_row_mean_getElem?, if_pos hi]
      rfl
    have hcount : cv_countNonZero_row mask i ≠ 0 := by
      intro h0
      apply hnz
      rw [hget, if_neg (fun h => h.2 h0)]
    have hnum : ((cv_countNonZero_row mask i : Nat) : ℚ) ≠ 0 := by exact_mod_cast hcount
    have hS : cv_sum_row src i =
        Flt.fin (∑ x in Finset.range src.cols, (src.data i x).toRat) := by
      unfold cv_sum_row
      exact sumTo_eq_fin _ _ _ (fun x hx => Flt.eq_fin_toRat _ (hfin i x hi hx))
    have hr : (insonification_row_mean src mask).getD i (Flt.fin 0) =
        Flt.fin ((∑ x in Finset.range src.cols, (src.data i x).toRat) /
          (cv_countNonZero_row mask i : ℚ)) := by
      rw [hget, if_pos ⟨h30, hcount⟩, hS]
      unfold Flt.ofNat
      rw [Flt.div_fin _ _ hnum]
      rfl
    have hr0 : (∑ x in Finset.range src.cols, (src.data i x).toRat) /
        (cv_countNonZero_row mask i : ℚ) ≠ 0 := by
      intro h0
      apply hnz
      rw [hr, h0]
    have hS0 : (∑ x in Finset.range src.cols, (src.data i x).toRat) ≠ 0 := by
      intro h0
      apply hr0
      rw [h0, zero_div]
    have hcond : 30 ≤ i ∧ i < src.rows ∧
        (insonification_row_mean src mask).getD i (Flt.fin 0) ≠ Flt.fin 0 := ⟨h30, hi, hnz⟩
    -- the pixels of row `i` of `dst`
    have hpix : ∀ x, x < src.cols →
        (if Flt.lt (Flt.fin 1)
            (if 30 ≤ i ∧ i < src.rows ∧
                (insonification_row_mean src mask).getD i (Flt.fin 0) ≠ Flt.fin 0 then
              src.data i x * (m / (insonification_row_mean src mask).getD i (Flt.fin 0))
            else src.data i x) = true
          then Flt.fin 1
          else
            (if 30 ≤ i ∧ i < src.rows ∧
                (insonification_row_mean src mask).getD i (Flt.fin 0) ≠ Flt.fin 0 then
              src.data i x * (m / (insonification_row_mean src mask).getD i (Flt.fin 0))
            else src.data i x)) =
          Flt.fin ((src.data i x).toRat *
            (mq / ((∑ x in Finset.range src.cols, (src.data i x).toRat) /
              (cv_countNonZero_row mask i : ℚ)))) := by
      intro x hx
      have h1 := hno x hx
      rw [if_pos hcond, h1]
      simp only [Bool.false_eq_true, if_false]
      rw [hr, hmq, Flt.div_fin _ _ hr0, Flt.eq_fin_toRat _ (hfin i x hi hx), Flt.mul_fin]
      rfl
    constructor
    · show sumTo src.cols _ / Flt.ofNat (cv_countNonZero_row mask i) = m
      rw [sumTo_eq_fin src.cols _ _ hpix, hmq]
      unfold Flt.ofNat
      rw [Flt.div_fin _ _ hnum, ← Finset.sum_mul]
      congr 1
      field_simp
    · intro hmax x hx
      refine Eq.trans (hpix x hx) ?_
      have hmq2 : mq = (∑ x in Finset.range src.cols, (src.data i x).toRat) /
          (cv_countNonZero_row mask i : ℚ) := by
        rw [hr, hmq] at hmax
        exact (Flt.fin.inj hmax).symm
      rw [← hmq2, div_self (by rw [hmq2]; exact hr0), mul_one]
      exact (Flt.eq_fin_toRat _ (hfin i x hi hx)).symm

/-- Witness for C21: row 30 of the `31 x 2` raster of `1/2` with its right column masked
out. -/
theorem insonification_correction_equalises_witness :
    (0 < halfImage.rows ∧ (leftMask.rows = halfImage.rows ∧ leftMask.cols = halfImage.cols) ∧
      (∀ y x, y < halfImage.rows → x < halfImage.cols →
        (halfImage.data y x).isFinite = true) ∧
      30 ≤ 30 ∧ 30 < halfImage.rows ∧
      (insonification_row_mean halfImage leftMask).getD 30 (Flt.fin 0) ≠ Flt.fin 0) ∧
    ∃ dst max_mean, insonification_correction halfImage leftMask = some dst ∧
      max_element (insonification_row_mean halfImage leftMask) = some max_mean ∧
      (∀ v, v ∈ insonification_row_mean halfImage leftMask → Flt.le v max_mean = true) ∧
      ((∀ x, x < halfImage.cols → Flt.lt (Flt.fin 1) (halfImage.data 30 x *
          (max_mean / (insonification_row_mean halfImage leftMask).getD 30 (Flt.fin 0))) =
            false) →
        cv_sum_row dst 30 / Flt.ofNat (cv_countNonZero_row leftMask 30) = max_mean ∧
        ((insonification_row_mean halfImage leftMask).getD 30 (Flt.fin 0) = max_mean →
          ∀ x, x < halfImage.cols → dst.data 30 x = halfImage.data 30 x)) :=
  ⟨⟨by decide, by decide, fun _ _ _ _ => rfl, by decide, by decide, by decide!⟩,
    insonification_correction_equalises halfImage leftMask 30 (by decide) (by decide)
      (fun _ _ _ _ => rfl) (by decide) (by decide) (by decide!)⟩

/-! ## C22: the mask-aware border filter on a constant image -/

/-- C22: for every 8-bit image whose pixels all equal one constant, every mask and each
kernel family (Scharr, Prewitt, Sobel), the mask-aware `border_filter` returns a raster of
the size of the image that is 0 at every pixel; every kernel built by `border_filter_kernel`,
in every direction, has entries that sum to 0, and the kernel of direction 1 is the
transpose of the kernel of direction 0. -/
theorem border_filter_const_zero (src : Mat Nat) (c : Nat) (mask : Mat Nat)
    (type : BorderFilterType)
    (hconst : ∀ y x, y < src.rows → x < src.cols → src.data y x = c) :
    (∃ out, border_filter src mask type = some out ∧
      out.rows = src.rows ∧ out.cols = src.cols ∧ ∀ y x, out.data y x = 0) ∧
    (∀ direction : Int,
      ((List.range 3).map (fun r => ((List.range 3).map (fun k =>
        ((border_filter_kernel direction type).data r k).toRat)).sum)).sum = 0) ∧
    (∀ r k, (border_filter_kernel 1 type).data r k = (border_filter_kernel 0 type).data k r) := by
  refine ⟨?_, ?_, ?_⟩
  · obtain ⟨gx, hgx, hrx, hcx, hzx⟩ := filter2d_const_zero src c mask 0 type hconst
    obtain ⟨gy, hgy, _, _, hzy⟩ := filter2d_const_zero src c mask 1 type hconst
    refine ⟨addWeighted gx (Flt.fin (1 / 2)) gy (Flt.fin (1 / 2)) (Flt.fin 0), ?_, hrx, hcx, ?_⟩
    · unfold border_filter
      rw [hgx, hgy]
    · intro y x
      show saturate_cast_uchar (Flt.ofNat (gx.data y x) * Flt.fin (1 / 2) +
        Flt.ofNat (gy.data y x) * Flt.fin (1 / 2) + Flt.fin 0) = 0
      rw [hzx y x, hzy y x]
      decide!
  · intro direction
    have h := border_filter_kernel_sum direction type 1
    simpa using h
  · intro r k
    rfl

/-- Witness for C22: the `5 x 5` raster of tens with a full mask, Scharr kernels. -/
theorem border_filter_const_zero_witness :
    (∀ y x, y < tenImage5.rows → x < tenImage5.cols → tenImage5.data y x = 10) ∧
    ((∃ out, border_filter tenImage5 (constMask 5 5 255) BorderFilterType.kSCharr = some out ∧
      out.rows = tenImage5.rows ∧ out.cols = tenImage5.cols ∧ ∀ y x, out.data y x = 0) ∧
    (∀ direction : Int,
      ((List.range 3).map (fun r => ((List.range 3).map (fun k =>
        ((border_filter_kernel direction BorderFilterType.kSCharr).data r k).toRat)).sum)).sum
        = 0) ∧
    (∀ r k, (border_filter_kernel 1 BorderFilterType.kSCharr).data r k =
      (border_filter_kernel 0 BorderFilterType.kSCharr).data k r)) :=
  ⟨fun _ _ _ _ => rfl,
    border_filter_const_zero tenImage5 10 (constMask 5 5 255) BorderFilterType.kSCharr
      (fun _ _ _ _ => rfl)⟩

/-! ## C23: the window of a pixel -/

/-- C23: the rectangle of `neighborhood_rect` does not always contain its pixel.  In a
`3 x 3` image the window of the pixel `(2,2)` for the radius 1 is the rectangle
`(x, y, width, height) = (1, 1, 1, 1)`: it lies inside the image and holds the single pixel
`(1,1)`, not `(2,2)`; in a `1 x 1` image the window of the only pixel is empty.  For every
image size, every pixel `(x, y)` of the image and every radius `n >= 1` the rectangle lies
inside the image, and it contains `(x, y)` exactly when `x < w - 1` and `y < h - 1`: the
pixels of the last column and of the last row are outside their own window. -/
theorem neighborhood_rect_misses_border_pixel :
    (neighborhood_rect 2 2 1 3 3).x = 1 ∧ (neighborhood_rect 2 2 1 3 3).y = 1 ∧
    (neighborhood_rect 2 2 1 3 3).width = 1 ∧ (neighborhood_rect 2 2 1 3 3).height = 1 ∧
    (neighborhood_rect 2 2 1 3 3).inside 3 3 = true ∧
    (neighborhood_rect 2 2 1 3 3).contains 2 2 = false ∧
    (neighborhood_rect 0 0 1 1 1).area = 0 ∧
    (neighborhood_rect 0 0 1 1 1).contains 0 0 = false ∧
    (∀ x y n w h : Int, 1 ≤ n → 0 ≤ x → x < w → 0 ≤ y → y < h →
      (neighborhood_rect x y n w h).inside w h = true ∧
      ((neighborhood_rect x y n w h).contains x y = true ↔ (x < w - 1 ∧ y < h - 1))) := by
  refine ⟨by decide, by decide, by decide, by decide, by decide, by decide, by decide,
    by decide, ?_⟩
  intro x y n w h hn hx0 hxw hy0 hyh
  simp only [Rect.inside, Rect.contains, neighborhood_rect, clip_rect, Rect.ofPoints,
    decide_eq_true_eq]
  constructor
  · omega
  · constructor
    · intro hc
      omega
    · intro hc
      omega

/-! ## C24: the block enumeration of `saliency_mapping` -/

/-- C24: the loops do not fill `total_blocks` entries.  For the `8 x 8` raster of `1/2` and
`block_count = 2` the blocks are `4 x 4`, the strides are 2, `number_of_rows` and
`number_of_cols` are `4/2 + 1 = 3` and `total_blocks = 9`, but the loops `i < 4`, `j < 4`
visit only `i, j = 0, 2`: the final `idx` is 4, and the entries 4..8 of `rects` and `means`
keep their initial values, the empty rectangle `(0,0,0,0)` and the mean 0.  For every raster
and `block_count` with `block_width/2 >= 1` and `block_height/2 >= 1` the loops terminate and
no store goes past the end of the vectors (`idx <= total_blocks`), but `idx < total_blocks`
whenever a stride divides its loop limit `height - block_height` or
`width - block_width`. -/
theorem saliency_mapping_blocks_short :
    saliency_mapping_block_width eightImage 2 = 4 ∧
    saliency_mapping_block_height eightImage 2 = 4 ∧
    saliency_mapping_number_of_rows eightImage 2 = 3 ∧
    saliency_mapping_number_of_cols eightImage 2 = 3 ∧
    saliency_mapping_total_blocks eightImage 2 = 9 ∧
    (saliency_mapping_blocks eightImage 2).map (fun st => st.idx) = some 4 ∧
    (saliency_mapping_blocks eightImage 2).map
        (fun st => st.rects.map (fun r => (r.x, r.y, r.width, r.height))) =
      some [(0, 0, 4, 4), (2, 0, 4, 4), (0, 2, 4, 4), (2, 2, 4, 4), (0, 0, 0, 0),
        (0, 0, 0, 0), (0, 0, 0, 0), (0, 0, 0, 0), (0, 0, 0, 0)] ∧
    (saliency_mapping_blocks eightImage 2).map (fun st => st.means) =
      some [Flt.fin (1 / 2), Flt.fin (1 / 2), Flt.fin (1 / 2), Flt.fin (1 / 2), Flt.fin 0,
        Flt.fin 0, Flt.fin 0, Flt.fin 0, Flt.fin 0] ∧
    (∀ (src : Mat Flt) (block_count : Nat),
      1 ≤ saliency_mapping_block_height src block_count / 2 →
      1 ≤ saliency_mapping_block_width src block_count / 2 →
      ∃ st, saliency_mapping_blocks src block_count = some st ∧
        st.idx ≤ saliency_mapping_total_blocks src block_count ∧
        ((saliency_mapping_block_height src block_count / 2 ∣
              src.rows - saliency_mapping_block_height src block_count ∨
            saliency_mapping_block_width src block_count / 2 ∣
              src.cols - saliency_mapping_block_width src block_count) →
          st.idx < saliency_mapping_total_blocks src block_count)) :=
  ⟨by decide, by decide, by decide, by decide, by decide, by decide!, by decide!, by decide!,
    saliency_mapping_blocks_idx⟩

end SonarProcessing
